import Mathlib

/-!
Verification of the tft-vod-review correlation engine.

The development shallowly embeds the three core components of the
repository and proves the specified properties about them:

* `scoreCandidates` and the auto-linker `autoLinkVod` /
  `autoLinkAllUnlinked` (source: the auto-link module),
* the Riot rate limiter `createRiotRateLimiter`
  (source: `electron/services/riot-rate-limiter.ts`), modelled as a
  sequential transition system — faithful because the source serializes
  all acquisitions through a single promise queue,
* the VOD watcher's rescan scheduling
  (source: `electron/services/vod-watcher.ts`), modelled as an event
  step system.

Timestamps are integers (milliseconds); fallible remote calls return
`Except String`.  JavaScript's stable ascending `Array.prototype.sort`
is modelled by a stable insertion sort `sortByKey`.
-/

namespace TftVod

/-! ## A stable ascending sort, modelling `Array.prototype.sort((a, b) => key a - key b)` -/

/-- Insert `x` after every element whose key is strictly smaller, before the
first element whose key is `≥ key x`.  Used by `sortByKey`. -/
def insertByKey {α : Type} (key : α → Int) (x : α) : List α → List α
  | [] => [x]
  | y :: ys => if key y < key x then y :: insertByKey key x ys else x :: y :: ys

/-- Stable ascending insertion sort by an integer key: extensionally equal to
JavaScript's stable `sort((a, b) => key a - key b)`. -/
def sortByKey {α : Type} (key : α → Int) : List α → List α
  | [] => []
  | x :: xs => insertByKey key x (sortByKey key xs)

theorem mem_insertByKey {α : Type} (key : α → Int) (x : α) (l : List α) (y : α) :
    y ∈ insertByKey key x l ↔ y = x ∨ y ∈ l := by
  induction l with
  | nil => simp [insertByKey]
  | cons z zs ih =>
    simp only [insertByKey]
    by_cases h : key z < key x
    · simp [h, ih]; tauto
    · simp [h]

theorem sortByKey_pairwise {α : Type} (key : α → Int) (l : List α) :
    (sortByKey key l).Pairwise (fun a b => key a ≤ key b) := by
  induction l with
  | nil => simp [sortByKey]
  | cons x xs ih =>
    simp only [sortByKey]
    have hins : ∀ (m : List α), m.Pairwise (fun a b => key a ≤ key b) →
        (insertByKey key x m).Pairwise (fun a b => key a ≤ key b) := by
      intro m
      induction m with
      | nil => intro _; simp [insertByKey]
      | cons z zs ihm =>
        intro hp
        rw [List.pairwise_cons] at hp
        simp only [insertByKey]
        by_cases h : key z < key x
        · simp only [h, if_pos]
          rw [List.pairwise_cons]
          refine ⟨?_, ihm hp.2⟩
          intro b hb
          rcases (mem_insertByKey key x zs b).mp hb with hb | hb
          · subst hb; omega
          · exact hp.1 b hb
        · simp only [h, if_neg, not_false_iff]
          rw [List.pairwise_cons]
          refine ⟨?_, List.pairwise_cons.mpr hp⟩
          intro b hb
          rcases List.mem_cons.mp hb with hb | hb
          · subst hb; omega
          · have := hp.1 b hb; omega
    exact hins _ ih

theorem insertByKey_map {α β : Type} (key : α → Int) (key' : β → Int) (f : α → β)
    (hkey : ∀ a, key' (f a) = key a) (x : α) (l : List α) :
    insertByKey key' (f x) (l.map f) = (insertByKey key x l).map f := by
  induction l with
  | nil => simp [insertByKey]
  | cons z zs ih =>
    simp only [List.map_cons, insertByKey, hkey]
    by_cases h : key z < key x
    · simp [h, ih]
    · simp [h]

theorem sortByKey_map {α β : Type} (key : α → Int) (key' : β → Int) (f : α → β)
    (hkey : ∀ a, key' (f a) = key a) (l : List α) :
    sortByKey key' (l.map f) = (sortByKey key l).map f := by
  induction l with
  | nil => simp [sortByKey]
  | cons x xs ih =>
    simp only [List.map_cons, sortByKey, ih]
    exact insertByKey_map key key' f hkey x (sortByKey key xs)

theorem filter_map_comm {α β : Type} (f : α → β) (p : β → Bool) (l : List α) :
    (l.map f).filter p = (l.filter (fun a => p (f a))).map f := by
  induction l with
  | nil => rfl
  | cons x xs ih =>
    simp only [List.map_cons, List.filter_cons]
    by_cases h : p (f x) <;> simp [h, ih]

/-! ## Data model of the correlator -/

/-- An ephemeral match candidate: id, derived start time, end time.
Source: `type Candidate = { matchId; matchStartMs; matchEndMs }`. -/
structure Candidate where
  matchId : String
  matchStartMs : Int
  matchEndMs : Int
deriving Repr, DecidableEq

/-- Decision statuses returned by `scoreCandidates`. -/
inductive LinkDecision where
  | linked
  | ambiguous
  | not_found
deriving Repr, DecidableEq

/-- Result record of `scoreCandidates`
(`{ status; matchId?; candidates?; confidenceMs? }`). -/
structure ScoreResult where
  status : LinkDecision
  matchId : Option String := Option.none
  candidates : Option (List String) := Option.none
  confidenceMs : Option Int := Option.none
deriving Repr, DecidableEq

/-- A candidate augmented with `signedDeltaStart` (first `.map` of the source
pipeline). -/
structure ScoredCand extends Candidate where
  signedDeltaStart : Int
deriving Repr, DecidableEq

/-- A scored candidate additionally carrying `score` (second `.map` of the
source pipeline). -/
structure ScoredFull extends ScoredCand where
  score : Int
deriving Repr, DecidableEq

/-- `ALLOW_EARLY_MS = 60_000` — clock-skew tolerance of the candidate filter. -/
def ALLOW_EARLY_MS : Int := 60000

/-- The `map`/`filter`/`map`/`sort` pipeline of the source's
`scoreCandidates`: signed start deltas, early-tolerance filter, score
`max 0 delta`, stable ascending sort by score. -/
def codeScored (vodTimeMs : Int) (candidates : List Candidate) : List ScoredFull :=
  sortByKey (fun c => c.score)
    (((candidates.map
          (fun c => ({ toCandidate := c,
                       signedDeltaStart := c.matchStartMs - vodTimeMs } : ScoredCand))).filter
        (fun c => decide (c.signedDeltaStart ≥ -ALLOW_EARLY_MS))).map
      (fun c => ({ toScoredCand := c, score := max 0 c.signedDeltaStart } : ScoredFull)))

/-- Shallow embedding of `scoreCandidates` from the auto-link module:
map to signed start deltas, drop candidates starting more than
`ALLOW_EARLY_MS` before the anchor, score by `max 0 delta`, stable-sort
ascending, then decide linked / ambiguous / not_found by the thresholds. -/
def scoreCandidates (vodTimeMs : Int) (candidates : List Candidate) : ScoreResult :=
  if candidates.isEmpty then { status := .not_found }
  else
    match codeScored vodTimeMs candidates with
    | [] => { status := .not_found }
    | best :: rest =>
      if best.score ≤ 3 * 60000 then
        { status := .linked, matchId := some best.matchId, confidenceMs := some best.score }
      else
        match rest.head? with
        | some second =>
          if best.score ≤ 10 * 60000 ∧ second.score - best.score ≥ 5 * 60000 then
            { status := .linked, matchId := some best.matchId, confidenceMs := some best.score }
          else
            { status := .ambiguous,
              candidates := some (((best :: rest).take 5).map (fun c => c.matchId)),
              confidenceMs := some best.score }
        | Option.none =>
          { status := .ambiguous,
            candidates := some (((best :: rest).take 5).map (fun c => c.matchId)),
            confidenceMs := some best.score }

/-! Spec-side decision procedures (written from the claim's words, for
comparison with the source embedding). -/

/-- Spec constant: `earlyToleranceMs` (60 s). -/
def earlyToleranceMs : Int := 60000

/-- Spec constant: `confidentThresholdMs` (3 min). -/
def confidentThresholdMs : Int := 3 * 60000

/-- Spec constant: `wideThresholdMs` (10 min). -/
def wideThresholdMs : Int := 10 * 60000

/-- Spec constant: `separationMs` (5 min). -/
def separationMs : Int := 5 * 60000

/-- The claim's wide-threshold side condition: "either there is no second
candidate or `second.score − best.score ≥ separationMs`". -/
def noSecondOrSeparated (best : Int) (rest : List (String × Int)) : Bool :=
  match rest with
  | [] => true
  | second :: _ => decide (second.2 - best ≥ separationMs)

/-- The source's wide-threshold side condition: a second candidate must exist
and be separated by at least `separationMs`. -/
def separatedSecond (best : Int) (rest : List (String × Int)) : Bool :=
  match rest with
  | [] => false
  | second :: _ => decide (second.2 - best ≥ separationMs)

/-- The claim's ranking pipeline: discard candidates starting more than
`earlyToleranceMs` before the anchor, pair each id with
`score = max 0 (start − anchor)`, sort ascending by score. -/
def specRanked (anchor : Int) (cands : List Candidate) : List (String × Int) :=
  let kept := cands.filter (fun c => !decide (c.matchStartMs < anchor - earlyToleranceMs))
  sortByKey (fun p => p.2)
    (kept.map (fun c => (c.matchId, max 0 (c.matchStartMs - anchor))))

/-- Modelled from the spec: the decision procedure exactly as the claim
states it — in particular a lone wide-threshold candidate (no second
candidate) is `linked`. -/
def scoreSpecClaim (anchor : Int) (cands : List Candidate) : ScoreResult :=
  match specRanked anchor cands with
  | [] => { status := .not_found }
  | best :: rest =>
    if best.2 ≤ confidentThresholdMs then
      { status := .linked, matchId := some best.1, confidenceMs := some best.2 }
    else if best.2 ≤ wideThresholdMs ∧ noSecondOrSeparated best.2 rest = true then
      { status := .linked, matchId := some best.1, confidenceMs := some best.2 }
    else
      { status := .ambiguous,
        candidates := some (((best :: rest).take 5).map (fun p => p.1)),
        confidenceMs := some best.2 }

/-- The claim's decision procedure amended to match the source: the
wide-threshold branch links only when a second candidate exists and is
separated by at least `separationMs`; a lone wide-threshold candidate is
`ambiguous`. -/
def scoreSpecAmended (anchor : Int) (cands : List Candidate) : ScoreResult :=
  match specRanked anchor cands with
  | [] => { status := .not_found }
  | best :: rest =>
    if best.2 ≤ confidentThresholdMs then
      { status := .linked, matchId := some best.1, confidenceMs := some best.2 }
    else if best.2 ≤ wideThresholdMs ∧ separatedSecond best.2 rest = true then
      { status := .linked, matchId := some best.1, confidenceMs := some best.2 }
    else
      { status := .ambiguous,
        candidates := some (((best :: rest).take 5).map (fun p => p.1)),
        confidenceMs := some best.2 }

/-- Projection of a fully scored candidate to the (id, score) pair used by
the spec-side ranking. -/
def scoredPair (c : ScoredFull) : String × Int := (c.matchId, c.score)

@[simp] theorem scoredPair_fst (c : ScoredFull) : (scoredPair c).1 = c.matchId := rfl

@[simp] theorem scoredPair_snd (c : ScoredFull) : (scoredPair c).2 = c.score := rfl

theorem specRanked_eq_map (anchor : Int) (cs : List Candidate) :
    specRanked anchor cs = (codeScored anchor cs).map scoredPair := by
  unfold specRanked codeScored
  rw [← sortByKey_map (fun c : ScoredFull => c.score) (fun p : String × Int => p.2)
        scoredPair (fun _ => rfl)]
  rw [filter_map_comm, List.map_map, List.map_map]
  have hfil : (cs.filter (fun c => !decide (c.matchStartMs < anchor - earlyToleranceMs)))
      = cs.filter (fun c =>
          decide ((({ toCandidate := c,
                      signedDeltaStart := c.matchStartMs - anchor } : ScoredCand)).signedDeltaStart
            ≥ -ALLOW_EARLY_MS)) := by
    apply List.filter_congr
    intro c _
    simp only [earlyToleranceMs, ALLOW_EARLY_MS, ← decide_not, decide_eq_decide]
    omega
  rw [hfil]
  rfl

/-- C1 counterexample: a lone candidate starting 4 minutes after the anchor.
The claim's procedure ("no second candidate" suffices under the wide
threshold) returns `linked`, while the source's `scoreCandidates` requires a
separated second candidate to exist and returns `ambiguous`. -/
theorem scoreCandidates_claim_counterexample :
    scoreSpecClaim 0 [⟨"m1", 240000, 2000000⟩]
        = { status := .linked, matchId := some "m1", confidenceMs := some 240000 } ∧
    scoreCandidates 0 [⟨"m1", 240000, 2000000⟩]
        = { status := .ambiguous, candidates := some ["m1"], confidenceMs := some 240000 } := by
  exact ⟨rfl, rfl⟩

/-- C1 (amended): `scoreCandidates` implements the claim's decision procedure
with the wide-threshold branch corrected to demand an existing second
candidate separated by at least `separationMs` (a lone wide-threshold best
candidate is `ambiguous`, not `linked`); and on two candidates at
anchor+240000 ms and anchor+270000 ms it returns `ambiguous` with both ids
and `confidenceMs = 240000`. -/
theorem scoreCandidates_eq_specAmended :
    (∀ anchor cands, scoreCandidates anchor cands = scoreSpecAmended anchor cands) ∧
    scoreCandidates 0 [⟨"a", 240000, 2000000⟩, ⟨"b", 270000, 2100000⟩]
      = { status := .ambiguous, candidates := some ["a", "b"],
          confidenceMs := some 240000 } := by
  constructor
  · intro anchor cs
    unfold scoreCandidates scoreSpecAmended
    cases cs with
    | nil => rfl
    | cons c cs' =>
      simp only [List.isEmpty_cons, Bool.false_eq_true, if_false, specRanked_eq_map]
      cases hsc : codeScored anchor (c :: cs') with
      | nil => rfl
      | cons best rest =>
        simp only [List.map_cons, confidentThresholdMs, scoredPair_snd, scoredPair_fst]
        by_cases h1 : best.score ≤ 3 * 60000
        · rw [if_pos h1, if_pos h1]
        · rw [if_neg h1, if_neg h1]
          cases rest with
          | nil =>
            simp only [List.map_nil, List.head?_nil, separatedSecond, Bool.false_eq_true,
              and_false, if_false, List.take_cons, List.map_cons, wideThresholdMs]
            rfl
          | cons second t =>
            simp only [List.map_cons, List.head?_cons, separatedSecond, wideThresholdMs,
              separationMs, decide_eq_true_eq, scoredPair_snd]
            by_cases h2 : best.score ≤ 10 * 60000 ∧ second.score - best.score ≥ 5 * 60000
            · rw [if_pos h2, if_pos h2]
            · rw [if_neg h2, if_neg h2]
              have hmt : (scoredPair best :: scoredPair second :: List.map scoredPair t)
                  = List.map scoredPair (best :: second :: t) := rfl
              rw [hmt, ← List.map_take, List.map_map]
              rfl
  · rfl

/-! ## Rate limiter (`electron/services/riot-rate-limiter.ts`)

The source serializes every `withRiotRateLimit` caller through a single
promise queue, so concurrent acquisitions execute `waitForSlot` strictly one
after another.  The limiter is therefore modelled as a sequential transition
system whose oracle inputs `now`, `now2`, `now3` are the three `Date.now()`
readings of one acquisition; the hypotheses of `RlStep.acquire` are exactly
the lower bounds the two `sleep` calls enforce. -/

/-- Limiter configuration: `minIntervalMs`, `windowMs`, `windowMax`. -/
structure RlConfig where
  minIntervalMs : Nat
  windowMs : Nat
  windowMax : Nat
deriving Repr, DecidableEq

/-- Limiter state `lastRequestAt` / `recentRequests`, plus the ghost history
`grants` of every granted timestamp (oldest first). -/
structure RlState where
  lastRequestAt : Nat
  recentRequests : List Nat
  grants : List Nat
deriving Repr, DecidableEq

/-- `recentRequests.filter((t) => now2 - t < windowMs)` — drop entries that
have aged out of the rolling window. -/
def pruneWindow (cfg : RlConfig) (now2 : Nat) (rs : List Nat) : List Nat :=
  rs.filter (fun t => decide (now2 - t < cfg.windowMs))

/-- One serialized `waitForSlot` acquisition.  `hintv` models the
min-interval sleep, `hwin` the rolling-window sleep (`waitMs = oldest +
windowMs - now2 + 50`; the sleep happens only when `waitMs > 0`, and
`recentRequests[0]` exists only when the pruned window is nonempty). -/
inductive RlStep (cfg : RlConfig) : RlState → RlState → Prop where
  | acquire (s : RlState) (now now2 now3 : Nat)
      (hmono : s.lastRequestAt ≤ now)
      (hnow2 : now ≤ now2)
      (hintv : s.lastRequestAt + cfg.minIntervalMs > now →
        s.lastRequestAt + cfg.minIntervalMs ≤ now2)
      (hnow3 : now2 ≤ now3)
      (hwin : (pruneWindow cfg now2 s.recentRequests).length ≥ cfg.windowMax →
        ∀ oldest, (pruneWindow cfg now2 s.recentRequests).head? = some oldest →
        oldest + cfg.windowMs + 50 > now2 →
        oldest + cfg.windowMs + 50 ≤ now3) :
      RlStep cfg s { lastRequestAt := now3,
                     recentRequests := pruneWindow cfg now2 s.recentRequests ++ [now3],
                     grants := s.grants ++ [now3] }

/-- States reachable by serialized acquisitions from the initial limiter
state (`lastRequestAt = 0`, empty window). -/
inductive RlReach (cfg : RlConfig) : RlState → Prop where
  | init : RlReach cfg { lastRequestAt := 0, recentRequests := [], grants := [] }
  | step {s s' : RlState} : RlReach cfg s → RlStep cfg s s' → RlReach cfg s'

/-- Basic invariant: the grant history is sorted, consecutive grants are at
least `minIntervalMs` apart, and `lastRequestAt` is the latest grant. -/
structure RlBasic (cfg : RlConfig) (s : RlState) : Prop where
  chain : s.grants.Chain' (fun a b => a + cfg.minIntervalMs ≤ b)
  sorted : s.grants.Pairwise (fun a b => a ≤ b)
  last_ub : ∀ g ∈ s.grants, g ≤ s.lastRequestAt
  last_mem : s.grants.getLast? = some s.lastRequestAt ∨
    (s.grants = [] ∧ s.lastRequestAt = 0)

theorem rlBasic_of_reach {cfg : RlConfig} {s : RlState} (h : RlReach cfg s) :
    RlBasic cfg s := by
  induction h with
  | init => exact ⟨List.chain'_nil, List.Pairwise.nil, by simp, Or.inr ⟨rfl, rfl⟩⟩
  | step hs hst ih =>
    rename_i s s'
    cases hst with
    | acquire now now2 now3 hmono hnow2 hintv hnow3 hwin =>
      have hlast3' : s.lastRequestAt + cfg.minIntervalMs ≤ now3 := by
        rcases Nat.lt_or_ge now (s.lastRequestAt + cfg.minIntervalMs) with hc | hc
        · exact le_trans (hintv hc) hnow3
        · omega
      refine ⟨?_, ?_, ?_, ?_⟩
      · refine List.Chain'.append ih.chain (List.chain'_singleton now3) ?_
        intro x hx y hy
        simp only [List.head?_cons, Option.mem_def, Option.some.injEq] at hy
        subst hy
        rcases ih.last_mem with hl | hl
        · rw [hl] at hx
          simp only [Option.mem_def, Option.some.injEq] at hx
          subst hx
          exact hlast3'
        · rw [hl.1] at hx
          simp at hx
      · rw [List.pairwise_append]
        refine ⟨ih.sorted, List.pairwise_singleton _ _, ?_⟩
        intro a ha b hb
        simp only [List.mem_singleton] at hb
        subst hb
        have := ih.last_ub a ha
        omega
      · intro g hg
        show g ≤ now3
        rcases List.mem_append.mp hg with hg | hg
        · have := ih.last_ub g hg
          omega
        · simp only [List.mem_singleton] at hg
          omega
      · exact Or.inl (List.getLast?_concat _)

/-- For a sorted list and an upward-closed predicate, the failing elements
form a prefix and the passing elements the remaining suffix. -/
theorem sorted_filter_decompose (l : List Nat) (p : Nat → Bool)
    (hs : l.Pairwise (fun a b => a ≤ b))
    (hup : ∀ a b, a ≤ b → p a = true → p b = true) :
    l = l.filter (fun a => !p a) ++ l.filter p := by
  induction l with
  | nil => rfl
  | cons x xs ih =>
    rw [List.pairwise_cons] at hs
    cases hpx : p x with
    | false =>
      simp only [List.filter_cons, hpx, Bool.not_false, if_pos, if_neg, Bool.false_eq_true,
        not_false_iff, List.cons_append]
      exact congrArg (x :: ·) (ih hs.2)
    | true =>
      have hall : ∀ y ∈ xs, p y = true := fun y hy => hup x y (hs.1 y hy) hpx
      have h1 : xs.filter (fun a => !p a) = [] := by
        rw [List.filter_eq_nil_iff]
        intro a ha
        simp [hall a ha]
      have h2 : List.filter p xs = xs := List.filter_eq_self.mpr hall
      simp [List.filter_cons, hpx, h1, h2]

theorem mem_of_getElem?_eq {α : Type} {l : List α} {i : Nat} {a : α}
    (h : l[i]? = some a) : a ∈ l := by
  induction l generalizing i with
  | nil => simp at h
  | cons x xs ih =>
    cases i with
    | zero => simp_all
    | succ j => exact List.mem_cons_of_mem _ (ih (by simpa using h))

/-- Window invariant of the limiter (for `windowMax ≥ 1`):
`recentRequests` is a suffix of the grant history whose dropped prefix has
aged out, the window list holds at most `windowMax + 1` entries (and only
with an aged-out head when full), and any `windowMax + 1` consecutive
grants span at least `windowMs`. -/
structure RlWindowInv (cfg : RlConfig) (s : RlState) : Prop where
  suffix : ∃ dropped, s.grants = dropped ++ s.recentRequests ∧
    ∀ t ∈ dropped, t + cfg.windowMs ≤ s.lastRequestAt
  recent_len : s.recentRequests.length ≤ cfg.windowMax + 1
  recent_full : s.recentRequests.length = cfg.windowMax + 1 →
    ∀ h0, s.recentRequests.head? = some h0 → h0 + cfg.windowMs ≤ s.lastRequestAt
  spacing : ∀ i a b, s.grants[i]? = some a →
    s.grants[i + cfg.windowMax]? = some b → a + cfg.windowMs ≤ b

theorem rlWindowInv_of_reach {cfg : RlConfig} (hwm : 1 ≤ cfg.windowMax)
    {s : RlState} (h : RlReach cfg s) : RlWindowInv cfg s := by
  induction h with
  | init =>
    refine ⟨⟨[], rfl, by simp⟩, by simp, by simp, ?_⟩
    intro i a b ha _
    simp at ha
  | step hs hst ih =>
    rename_i s s'
    have hb := rlBasic_of_reach hs
    cases hst with
    | acquire now now2 now3 hmono hnow2 hintv hnow3 hwin =>
      obtain ⟨dropped, hdrop, hdropAged⟩ := ih.suffix
      set rec := s.recentRequests with hrec
      set pruned := pruneWindow cfg now2 rec with hpruned
      have hF0 : ∀ t ∈ s.grants, t ≤ now2 := by
        intro t ht
        have := hb.last_ub t ht
        omega
      have hrecSorted : rec.Pairwise (fun a b => a ≤ b) := by
        have := hb.sorted
        rw [hdrop, List.pairwise_append] at this
        exact this.2.1
      have hup : ∀ a b : Nat, a ≤ b →
          decide (now2 - a < cfg.windowMs) = true →
          decide (now2 - b < cfg.windowMs) = true := by
        intro a b hab ha
        simp only [decide_eq_true_eq] at *
        omega
      have hsplit : rec = rec.filter (fun t => !decide (now2 - t < cfg.windowMs)) ++ pruned :=
        sorted_filter_decompose rec _ hrecSorted hup
      set removed := rec.filter (fun t => !decide (now2 - t < cfg.windowMs)) with hremoved
      have hremAged : ∀ t ∈ removed, t + cfg.windowMs ≤ now2 := by
        intro t ht
        rw [hremoved, List.mem_filter] at ht
        have htg : t ∈ s.grants := by
          rw [hdrop]
          exact List.mem_append_right _ ht.1
        have h1 := hF0 t htg
        have h2 : ¬ (now2 - t < cfg.windowMs) := by
          have := ht.2
          simp only [Bool.not_eq_eq_eq_not, Bool.not_true, decide_eq_false_iff_not] at this
          exact this
        omega
      have hprunedLen : pruned.length ≤ cfg.windowMax := by
        rcases Nat.lt_or_ge rec.length (cfg.windowMax + 1) with hlen | hlen
        · calc pruned.length ≤ rec.length := List.length_filter_le _ _
            _ ≤ cfg.windowMax := by omega
        · have hlen' : rec.length = cfg.windowMax + 1 := le_antisymm ih.recent_len hlen
          rcases hr : rec with _ | ⟨h0, tail⟩
          · rw [hr] at hlen'; simp at hlen'
          · have hhead := ih.recent_full hlen' h0 (by rw [← hrec, hr, List.head?_cons])
            have hh0g : h0 ∈ s.grants := by
              rw [hdrop, hr]
              exact List.mem_append_right _ (List.mem_cons_self _ _)
            have hfail : decide (now2 - h0 < cfg.windowMs) = false := by
              simp only [decide_eq_false_iff_not]
              have := hF0 h0 hh0g
              omega
            have : pruned = pruneWindow cfg now2 (h0 :: tail) := by rw [hpruned, hr]
            rw [this]
            unfold pruneWindow
            rw [List.filter_cons, hfail]
            simp only [Bool.false_eq_true, if_neg, not_false_iff]
            calc (List.filter _ tail).length ≤ tail.length := List.length_filter_le _ _
              _ = cfg.windowMax := by
                rw [hr] at hlen'; simpa using hlen'
      have hfull : pruned.length ≥ cfg.windowMax →
          ∀ p0, pruned.head? = some p0 → p0 + cfg.windowMs ≤ now3 := by
        intro hge p0 hp0
        by_cases hg : p0 + cfg.windowMs + 50 > now2
        · have := hwin hge p0 hp0 hg
          omega
        · omega
      refine ⟨?_, ?_, ?_, ?_⟩
      · refine ⟨dropped ++ removed, ?_, ?_⟩
        · show s.grants ++ [now3] = (dropped ++ removed) ++ (pruned ++ [now3])
          rw [hdrop, hsplit]
          simp [List.append_assoc]
        · intro t ht
          show t + cfg.windowMs ≤ now3
          rcases List.mem_append.mp ht with ht | ht
          · have := hdropAged t ht
            omega
          · have := hremAged t ht
            omega
      · show (pruned ++ [now3]).length ≤ cfg.windowMax + 1
        simp only [List.length_append, List.length_singleton]
        omega
      · intro hlen h0 hh0
        show h0 + cfg.windowMs ≤ now3
        have hlen2 : (pruned ++ [now3]).length = cfg.windowMax + 1 := hlen
        have hh02 : (pruned ++ [now3]).head? = some h0 := hh0
        have hplen : pruned.length = cfg.windowMax := by
          simp only [List.length_append, List.length_singleton] at hlen2
          omega
        rcases hp : pruned with _ | ⟨p0, prest⟩
        · rw [hp] at hplen; simp at hplen; omega
        · rw [hp] at hh02
          simp only [List.cons_append, List.head?_cons, Option.some.injEq] at hh02
          subst hh02
          exact hfull (by omega) _ (by rw [hp, List.head?_cons])
      · intro i a b ha hb2
        show a + cfg.windowMs ≤ b
        have ha2 : (s.grants ++ [now3])[i]? = some a := ha
        have hb3 : (s.grants ++ [now3])[i + cfg.windowMax]? = some b := hb2
        rcases Nat.lt_trichotomy (i + cfg.windowMax) s.grants.length with hlt | heq | hgt
        · rw [List.getElem?_append_left (by omega)] at ha2
          rw [List.getElem?_append_left hlt] at hb3
          exact ih.spacing i a b ha2 hb3
        · have hb4 : b = now3 := by
            rw [List.getElem?_append_right (by omega)] at hb3
            rw [heq, Nat.sub_self] at hb3
            simp at hb3
            omega
          subst hb4
          rw [List.getElem?_append_left (by omega)] at ha2
          have hgdecomp : s.grants = (dropped ++ removed) ++ pruned := by
            rw [hdrop, hsplit, List.append_assoc]
          rcases Nat.lt_or_ge pruned.length cfg.windowMax with hplt | hpge
          · have hiD : i < (dropped ++ removed).length := by
              rw [hgdecomp] at heq
              simp only [List.length_append] at heq
              simp only [List.length_append]
              omega
            rw [hgdecomp, List.getElem?_append_left hiD] at ha2
            have haD : a ∈ dropped ++ removed := mem_of_getElem?_eq ha2
            rcases List.mem_append.mp haD with haD | haD
            · have := hdropAged a haD
              omega
            · have := hremAged a haD
              omega
          · have hpeq : pruned.length = cfg.windowMax := le_antisymm hprunedLen hpge
            have hiD : i = (dropped ++ removed).length := by
              rw [hgdecomp] at heq
              simp only [List.length_append] at heq ⊢
              omega
            rw [hgdecomp, List.getElem?_append_right (by omega)] at ha2
            rw [hiD, Nat.sub_self] at ha2
            rcases hp : pruned with _ | ⟨p0, prest⟩
            · rw [hp] at hpeq; simp at hpeq; omega
            · rw [hp] at ha2
              simp only [List.getElem?_cons_zero, Option.some.injEq] at ha2
              subst ha2
              exact hfull (by omega) _ (by rw [hp, List.head?_cons])
        · have hnone : (s.grants ++ [now3])[i + cfg.windowMax]? = Option.none := by
            apply List.getElem?_eq_none
            simp only [List.length_append, List.length_singleton]
            omega
          rw [hnone] at hb3
          cases hb3

/-- A sorted list in which any `K + 1` consecutive elements span at least
`W` has at most `K` elements in any half-open window `[T, T + W)`. -/
theorem spaced_window_count (l : List Nat) (K W : Nat)
    (hs : l.Pairwise (fun a b => a ≤ b))
    (hsp : ∀ i a b, l[i]? = some a → l[i + K]? = some b → a + W ≤ b)
    (T : Nat) :
    l.countP (fun g => decide (T ≤ g ∧ g < T + W)) ≤ K := by
  by_contra hcon
  push_neg at hcon
  set p1 : Nat → Bool := fun g => decide (T ≤ g) with hp1
  set q1 : Nat → Bool := fun g => decide (g < T + W) with hq1
  have hsplit1 : l = l.filter (fun a => !p1 a) ++ l.filter p1 := by
    refine sorted_filter_decompose l p1 hs ?_
    intro a b hab hpa
    simp only [hp1, decide_eq_true_eq] at hpa ⊢
    omega
  set A := l.filter (fun a => !p1 a) with hA
  set B := l.filter p1 with hB
  have hBsorted : B.Pairwise (fun a b => a ≤ b) :=
    List.Pairwise.sublist (List.filter_sublist _) hs
  have hspB : ∀ i a b, B[i]? = some a → B[i + K]? = some b → a + W ≤ b := by
    intro i a b hba hbb
    apply hsp (A.length + i)
    · rw [hsplit1, List.getElem?_append_right (by omega)]
      simpa [Nat.add_sub_cancel_left] using hba
    · rw [hsplit1, List.getElem?_append_right (by omega)]
      have hidx : A.length + i + K - A.length = i + K := by omega
      rw [hidx]
      exact hbb
  have hsplit2 : B = B.filter (fun a => !(!q1 a)) ++ B.filter (fun a => !q1 a) := by
    refine sorted_filter_decompose B (fun a => !q1 a) hBsorted ?_
    intro a b hab ha
    simp only [hq1, Bool.not_eq_true', decide_eq_false_iff_not] at ha ⊢
    omega
  have hnn : (fun a : Nat => !(!q1 a)) = q1 := by
    funext a
    simp
  rw [hnn] at hsplit2
  set C := B.filter q1 with hC
  have hcountC : l.countP (fun g => decide (T ≤ g ∧ g < T + W)) = C.length := by
    rw [List.countP_eq_length_filter]
    congr 1
    have hpred : (fun g => decide (T ≤ g ∧ g < T + W)) = fun g => q1 g && p1 g := by
      funext g
      by_cases h1 : T ≤ g <;> by_cases h2 : g < T + W <;> simp [hp1, hq1, h1, h2]
    rw [hpred, hC, hB, List.filter_filter]
  rw [hcountC] at hcon
  have h0lt : 0 < C.length := by omega
  obtain ⟨c0, hc0⟩ : ∃ x, C[0]? = some x := ⟨_, List.getElem?_eq_getElem h0lt⟩
  obtain ⟨cK, hcK⟩ : ∃ x, C[K]? = some x := ⟨_, List.getElem?_eq_getElem hcon⟩
  have hB0 : B[0]? = some c0 := by
    conv_lhs => rw [hsplit2]
    rw [List.getElem?_append_left h0lt]
    exact hc0
  have hBK : B[K]? = some cK := by
    conv_lhs => rw [hsplit2]
    rw [List.getElem?_append_left hcon]
    exact hcK
  have hspace : c0 + W ≤ cK := by
    apply hspB 0 c0 cK hB0
    rw [Nat.zero_add]
    exact hBK
  have hc0T : T ≤ c0 := by
    have hm := mem_of_getElem?_eq hB0
    rw [hB, List.mem_filter] at hm
    have := hm.2
    simp only [hp1, decide_eq_true_eq] at this
    exact this
  have hcKW : cK < T + W := by
    have hm := mem_of_getElem?_eq hcK
    rw [hC, List.mem_filter] at hm
    have := hm.2
    simp only [hq1, decide_eq_true_eq] at this
    exact this
  omega

/-- C2 (amended): for every limiter configuration with `windowMax ≥ 1` and
every serialized sequence of `withRiotRateLimit` acquisitions, no rolling
window `[T, T + windowMs)` ever contains more than `windowMax` granted
timestamps: a full pruned window makes the acquirer wait until the oldest
entry has aged out (plus the 50 ms safety buffer) before its grant is
recorded. -/
theorem withRiotRateLimit_window_quota (cfg : RlConfig) (hwm : 1 ≤ cfg.windowMax)
    {s : RlState} (h : RlReach cfg s) (T : Nat) :
    s.grants.countP (fun g => decide (T ≤ g ∧ g < T + cfg.windowMs)) ≤ cfg.windowMax :=
  spaced_window_count s.grants cfg.windowMax cfg.windowMs
    (rlBasic_of_reach h).sorted (rlWindowInv_of_reach hwm h).spacing T

/-- Witness for the window-quota theorem: one acquisition under the default
configuration (250 / 120000 / 90) reaches the state with a single grant at
250, which keeps every window at or below the quota. -/
theorem withRiotRateLimit_window_quota_witness :
    1 ≤ (⟨250, 120000, 90⟩ : RlConfig).windowMax ∧
    ([250] : List Nat).countP
      (fun g => decide (0 ≤ g ∧ g < 0 + (⟨250, 120000, 90⟩ : RlConfig).windowMs)) ≤ 90 := by
  refine ⟨by decide, ?_⟩
  have hstep : RlStep ⟨250, 120000, 90⟩ ⟨0, [], []⟩
      { lastRequestAt := 250, recentRequests := [250], grants := [250] } := by
    exact RlStep.acquire ⟨0, [], []⟩ 0 250 250 (by decide) (by decide) (by decide) (by decide)
      (by intro _ oldest hold; simp [pruneWindow] at hold)
  exact withRiotRateLimit_window_quota ⟨250, 120000, 90⟩ (by decide)
    (RlReach.step RlReach.init hstep) 0

/-- C2 counterexample: the claim quantifies over every configuration, but
with `windowMax = 0` (and `minIntervalMs = 0`, `windowMs = 100`) the very
first acquisition is granted — `recentRequests[0]` does not exist, so no
window wait happens — and the window `[0, 100)` then holds 1 > 0 grants. -/
theorem withRiotRateLimit_window_quota_counterexample :
    RlReach ⟨0, 100, 0⟩ { lastRequestAt := 0, recentRequests := [0], grants := [0] } ∧
    ([0] : List Nat).countP (fun g => decide (0 ≤ g ∧ g < 0 + 100)) = 1 ∧
    ¬ ([0] : List Nat).countP (fun g => decide (0 ≤ g ∧ g < 0 + 100))
        ≤ (⟨0, 100, 0⟩ : RlConfig).windowMax := by
  refine ⟨RlReach.step RlReach.init ?_, by decide, by decide⟩
  exact RlStep.acquire ⟨0, [], []⟩ 0 0 0 (by decide) (by decide) (by decide) (by decide)
    (by intro _ oldest hold; simp [pruneWindow] at hold)

/-- C3: over any serialized sequence of acquisitions (the source serializes
all concurrent `withRiotRateLimit` callers through one promise queue, so
each acquisition's wait–compute–record steps form one atomic unit), the
granted timestamps are non-decreasing and consecutive grants are at least
`minIntervalMs` apart. -/
theorem withRiotRateLimit_grants_serialized {cfg : RlConfig} {s : RlState}
    (h : RlReach cfg s) :
    s.grants.Chain' (fun a b => a ≤ b ∧ a + cfg.minIntervalMs ≤ b) :=
  List.Chain'.imp (fun _ _ hab => ⟨by omega, hab⟩) (rlBasic_of_reach h).chain

/-- Witness for the grant-ordering theorem: two acquisitions under the
default configuration produce grants 250 and 500, which are ordered and
spaced by `minIntervalMs`. -/
theorem withRiotRateLimit_grants_serialized_witness :
    ([250, 500] : List Nat).Chain'
      (fun a b => a ≤ b ∧ a + (⟨250, 120000, 90⟩ : RlConfig).minIntervalMs ≤ b) := by
  have hstep1 : RlStep ⟨250, 120000, 90⟩ ⟨0, [], []⟩
      { lastRequestAt := 250, recentRequests := [250], grants := [250] } :=
    RlStep.acquire ⟨0, [], []⟩ 0 250 250 (by decide) (by decide) (by decide) (by decide)
      (by intro _ oldest hold; simp [pruneWindow] at hold)
  have hstep2 : RlStep ⟨250, 120000, 90⟩
      { lastRequestAt := 250, recentRequests := [250], grants := [250] }
      { lastRequestAt := 500, recentRequests := [250, 500], grants := [250, 500] } := by
    have h : RlStep ⟨250, 120000, 90⟩
        { lastRequestAt := 250, recentRequests := [250], grants := [250] } _ :=
      RlStep.acquire
        { lastRequestAt := 250, recentRequests := [250], grants := [250] }
        250 500 500 (by decide) (by decide) (by decide) (by decide)
        (by intro hge oldest hold; simp [pruneWindow] at hge)
    simpa [pruneWindow] using h
  exact withRiotRateLimit_grants_serialized
    (RlReach.step (RlReach.step RlReach.init hstep1) hstep2)

/-! ## Auto-linker (`createAutoLinker`: `autoLinkVod`, `autoLinkAllUnlinked`)

The store (`database.ts`) is modelled by explicit row lists, the remote
service by an oracle whose answers may depend on how many calls were made
so far (modelling transient failures), and every remote call is logged in
a trace together with its outcome. -/

/-- Persistent link status values (`match_link_status` column); the column
is NULL for an unlinked recording. -/
inductive LinkStatus where
  | linking
  | linked
  | ambiguous
  | not_found
  | error
deriving Repr, DecidableEq

/-- One row of the `vods` table, restricted to the columns the auto-linker
reads or writes. -/
structure VodRow where
  id : Nat
  createdAt : Option Int
  modifiedAt : Option Int
  matchId : Option String
  matchLinkStatus : Option LinkStatus
  matchLinkConfidenceMs : Option Int
  matchLinkCandidates : Option (List String)
  matchLinkError : Option String
deriving Repr, DecidableEq

/-- Cached stats of a `match_metadata` row as read by
`getCachedCandidateFromMetadata` (`stats.gameDatetimeMs`,
`stats.gameLengthSec`; the `typeof === 'number'` checks make both
optional). -/
structure MetaStats where
  gameDatetimeMs : Option Int
  gameLengthSec : Option Int
deriving Repr, DecidableEq

/-- A `match_metadata` row; `stats` may be NULL for rows written by older
code paths. -/
structure MetaEntry where
  stats : Option MetaStats
deriving Repr, DecidableEq

/-- The settings the auto-linker reads
(`riot_api_key`, `riot_puuid`, `riot_region`). -/
structure Settings where
  riot_api_key : Option String
  riot_puuid : Option String
  riot_region : Option String
deriving Repr, DecidableEq

/-- JavaScript falsiness of an optional string (undefined or empty). -/
def strFalsy : Option String → Bool
  | Option.none => true
  | some s => s.isEmpty

/-- The persistent store, restricted to what the auto-linker touches. -/
structure Db where
  vods : List VodRow
  metadata : List (String × MetaEntry)
  settings : Settings
deriving Repr, DecidableEq

/-- Association-list read (models `Map.get` / keyed SQL lookup). -/
def alGet {β : Type} (l : List (String × β)) (k : String) : Option β :=
  (l.find? (fun p => p.1 == k)).map (fun p => p.2)

/-- Association-list write (models `Map.set` / keyed SQL upsert). -/
def alSet {β : Type} (l : List (String × β)) (k : String) (v : β) : List (String × β) :=
  (k, v) :: l.filter (fun p => p.1 != k)

/-- `getVOD` — fetch the row with the given id. -/
def getVOD (db : Db) (vodId : Nat) : Option VodRow :=
  db.vods.find? (fun v => v.id == vodId)

/-- Targeted update of one row (the SQL `UPDATE ... WHERE id = ?`). -/
def updateVod (db : Db) (vodId : Nat) (f : VodRow → VodRow) : Db :=
  { db with vods := db.vods.map (fun v => if v.id == vodId then f v else v) }

/-- `setVodLinkStatus` — overwrites all four link columns (an omitted
optional parameter stores NULL). -/
def setVodLinkStatus (db : Db) (vodId : Nat) (status : LinkStatus)
    (confidenceMs : Option Int) (cands : Option (List String))
    (err : Option String) : Db :=
  updateVod db vodId (fun v =>
    { v with matchLinkStatus := some status, matchLinkConfidenceMs := confidenceMs,
             matchLinkCandidates := cands, matchLinkError := err })

/-- `linkMatch` — sets `match_id`, status `linked`, clears the error; the
confidence and candidate columns are untouched. -/
def linkMatch (db : Db) (vodId : Nat) (matchId : String) : Db :=
  updateVod db vodId (fun v =>
    { v with matchId := some matchId, matchLinkStatus := some LinkStatus.linked,
             matchLinkError := Option.none })

/-- `unlinkMatch` — resets every match column to NULL. -/
def unlinkMatch (db : Db) (vodId : Nat) : Db :=
  updateVod db vodId (fun v =>
    { v with matchId := Option.none, matchLinkStatus := Option.none,
             matchLinkConfidenceMs := Option.none, matchLinkCandidates := Option.none,
             matchLinkError := Option.none })

/-- `listUnlinkedVods` — rows with `match_id IS NULL`.  (The SQL orders by
`created_at DESC`; no claim depends on the order, so it is not modelled.) -/
def listUnlinkedVods (db : Db) : List VodRow :=
  db.vods.filter (fun v => v.matchId.isNone)

/-- A participant of a remote match payload (only the fields the
auto-linker inspects; `puuid` may be absent). -/
structure Participant where
  puuid : Option String
deriving Repr, DecidableEq

/-- A remote match payload: `info.game_datetime` (end time, ms),
`info.game_length` (seconds), `info.participants`; the `Option`s model the
source's `typeof === 'number'` checks. -/
structure MatchInfo where
  game_datetime : Option Int
  game_length : Option Int
  participants : List Participant
deriving Repr, DecidableEq

/-- The remote calls the auto-linker can make.  `fetchMeta` is the
`fetchTftMatch` performed inside `fetchMatchMetadata` when ensuring
metadata after a link. -/
inductive RCall where
  | listIds (region puuid : String) (startSec endSec : Int) (count : Nat)
  | fetchDetail (matchId : String)
  | fetchMeta (matchId : String)
deriving Repr, DecidableEq

/-- Is this the post-link metadata fetch? -/
def RCall.isMeta : RCall → Bool
  | RCall.fetchMeta _ => true
  | _ => false

/-- One remote call with its outcome (`none` = success). -/
structure TraceEntry where
  call : RCall
  failure : Option String
deriving Repr, DecidableEq

/-- The remote service as an oracle; responses may depend on the number of
calls made so far, modelling transient failures. -/
structure RemoteEnv where
  listIds : Nat → String → String → Int → Int → Nat → Except String (List String)
  fetchMatch : Nat → String → Except String MatchInfo

/-- The auto-linker's context: the store, the two sweep-scoped caches, the
remote-call trace, and the number of `notifyVodsUpdated` emissions. -/
structure St where
  db : Db
  matchIdsCache : List (String × List String)
  matchTimeCache : List (String × Candidate)
  trace : List TraceEntry
  notifications : Nat
deriving Repr, DecidableEq

/-- `notifyVodsUpdated()`. -/
def notify (st : St) : St := { st with notifications := st.notifications + 1 }

/-- `getCachedCandidateFromMetadata` — rebuild a candidate from cached
stats: start = `gameDatetimeMs − gameLengthSec * 1000`. -/
def getCachedCandidateFromMetadata (db : Db) (matchId : String) : Option Candidate :=
  match alGet db.metadata matchId with
  | Option.none => Option.none
  | some cached =>
    match cached.stats with
    | Option.none => Option.none
    | some stats =>
      match stats.gameDatetimeMs, stats.gameLengthSec with
      | some matchEndMs, some gameLengthSec =>
        some { matchId := matchId, matchStartMs := matchEndMs - gameLengthSec * 1000,
               matchEndMs := matchEndMs }
      | _, _ => Option.none

/-- The `stats` recorded when caching metadata (`gameDatetimeMs` /
`gameLengthSec` come straight from the payload; the other stats fields are
never read back by the auto-linker and are not modelled). -/
def statsOfInfo (info : MatchInfo) : MetaStats :=
  { gameDatetimeMs := info.game_datetime, gameLengthSec := info.game_length }

/-- `saveMatchMetadata` — upsert the metadata row. -/
def saveMatchMetadata (db : Db) (matchId : String) (stats : MetaStats) : Db :=
  { db with metadata := alSet db.metadata matchId { stats := some stats } }

/-- Outcome of the candidate-detail loop. -/
inductive FetchOut where
  | ok (candidates : List Candidate)
  | failed (e : String)
deriving Repr, DecidableEq

/-- `MAX_MATCH_DETAILS = 6`. -/
def MAX_MATCH_DETAILS : Nat := 6

/-- The candidate-detail loop of `autoLinkVod` over
`matchIds.slice(0, MAX_MATCH_DETAILS)`: in-memory cache, then DB metadata
cache, then a rate-limited `fetchTftMatch`; a payload without numeric
`game_datetime`/`game_length` skips that candidate; fresh payloads with a
participant are opportunistically cached. -/
def fetchCandidates (env : RemoteEnv) (puuid : String) :
    List String → St → List Candidate → (St × FetchOut)
  | [], st, acc => (st, FetchOut.ok acc)
  | matchId :: rest, st, acc =>
    let fromMem := alGet st.matchTimeCache matchId
    let fromDb := if fromMem.isSome then Option.none
                  else getCachedCandidateFromMetadata st.db matchId
    match fromMem.or fromDb with
    | some c =>
      fetchCandidates env puuid rest
        { st with matchTimeCache := alSet st.matchTimeCache matchId c } (acc ++ [c])
    | Option.none =>
      match env.fetchMatch st.trace.length matchId with
      | Except.error e =>
        ({ st with trace := st.trace ++ [{ call := RCall.fetchDetail matchId,
                                           failure := some e }] },
         FetchOut.failed e)
      | Except.ok info =>
        let st1 : St :=
          { st with trace := st.trace ++ [{ call := RCall.fetchDetail matchId,
                                            failure := Option.none }] }
        match info.game_datetime, info.game_length with
        | some matchEndMs, some gameLengthSec =>
          let candidate : Candidate :=
            { matchId := matchId, matchStartMs := matchEndMs - gameLengthSec * 1000,
              matchEndMs := matchEndMs }
          let st2 : St :=
            { st1 with matchTimeCache := alSet st1.matchTimeCache matchId candidate }
          let participant :=
            (info.participants.find? (fun p => p.puuid == some puuid)).or
              info.participants.head?
          let st3 : St :=
            match participant with
            | some _ => { st2 with db := saveMatchMetadata st2.db matchId (statsOfInfo info) }
            | Option.none => st2
          fetchCandidates env puuid rest st3 (acc ++ [candidate])
        | _, _ => fetchCandidates env puuid rest st1 acc

/-- `fetchMatchMetadata` from the Riot API module: a cache hit returns with
no remote work; otherwise it needs the API key, fetches the match, and
saves the metadata; a payload without participants is an error.  Returns
the error, if any — `autoLinkVod` absorbs it with a warning. -/
def fetchMatchMetadataCall (env : RemoteEnv) (matchId : String) (st : St) :
    St × Option String :=
  match alGet st.db.metadata matchId with
  | some _ => (st, Option.none)
  | Option.none =>
    if strFalsy st.db.settings.riot_api_key then
      (st, some "Riot API key not configured")
    else
      match env.fetchMatch st.trace.length matchId with
      | Except.error e =>
        ({ st with trace := st.trace ++ [{ call := RCall.fetchMeta matchId,
                                           failure := some e }] }, some e)
      | Except.ok info =>
        let st1 : St :=
          { st with trace := st.trace ++ [{ call := RCall.fetchMeta matchId,
                                            failure := Option.none }] }
        let configuredPuuid := (st.db.settings.riot_puuid).getD ""
        let participant :=
          (if configuredPuuid.isEmpty then Option.none
           else info.participants.find? (fun p => p.puuid == some configuredPuuid)).or
            info.participants.head?
        match participant with
        | Option.none => (st1, some "Match participants not available")
        | some _ =>
          ({ st1 with db := saveMatchMetadata st1.db matchId (statsOfInfo info) },
           Option.none)

/-- The forced-mode ranking of `autoLinkVod`: signed start-time deltas from
the anchor, early-tolerance filter, stable ascending sort by signed
delta. -/
def forceRank (vodTimeMs : Int) (candidates : List Candidate) : List (String × Int) :=
  sortByKey (fun c => c.2)
    ((candidates.map (fun c => (c.matchId, c.matchStartMs - vodTimeMs))).filter
      (fun c => decide (c.2 ≥ -ALLOW_EARLY_MS)))

/-- The remote-query window of `autoLinkVod`:
`{ startMs: vodTimeMs - 2 * 60_000, endMs: vodTimeMs + 90 * 60_000 }`. -/
def searchWindow (vodTimeMs : Int) : Int × Int :=
  (vodTimeMs - 2 * 60000, vodTimeMs + 90 * 60000)

/-- The sweep-scoped id-list cache key
`` `${region}|${puuid}|${startSec}|${endSec}|${count}` ``. -/
def cacheKey (region puuid : String) (startSec endSec : Int) (count : Nat) : String :=
  region ++ "|" ++ puuid ++ "|" ++ toString startSec ++ "|" ++ toString endSec ++ "|"
    ++ toString count

/-- Outcome of one anchor iteration. -/
inductive AnchorOut where
  | decided
  | continueNext
  | failed (e : String)
deriving Repr, DecidableEq

/-- Outcome of the whole anchor loop. -/
inductive TryOut where
  | decided
  | exhausted
  | failed (e : String)
deriving Repr, DecidableEq

/-- One anchor iteration of `autoLinkVod` after the match-id list was
obtained: fetch candidate details, then either the forced ranking or
`scoreCandidates`, writing the decision into the store. -/
def anchorBody (env : RemoteEnv) (vodId : Nat) (puuid : String) (force : Bool)
    (vodTimeMs : Int) (matchIds : List String) (st : St) : St × AnchorOut :=
  if matchIds.isEmpty then (st, AnchorOut.continueNext)
  else
    match fetchCandidates env puuid (matchIds.take MAX_MATCH_DETAILS) st [] with
    | (st1, FetchOut.failed e) => (st1, AnchorOut.failed e)
    | (st1, FetchOut.ok candidates) =>
      if force then
        let ranked := forceRank vodTimeMs candidates
        match ranked with
        | [] => (st1, AnchorOut.continueNext)
        | r0 :: _ =>
          let db' := setVodLinkStatus st1.db vodId LinkStatus.ambiguous
            (some (max 0 r0.2)) (some ((ranked.take 5).map (fun r => r.1))) Option.none
          ({ st1 with db := db' }, AnchorOut.decided)
      else
        let decision := scoreCandidates vodTimeMs candidates
        match decision.status, decision.matchId with
        | LinkDecision.linked, some mid =>
          let st2 : St := { st1 with db := linkMatch st1.db vodId mid }
          let db' := setVodLinkStatus st2.db vodId LinkStatus.linked
            decision.confidenceMs Option.none Option.none
          let st3 : St := { st2 with db := db' }
          ((fetchMatchMetadataCall env mid st3).1, AnchorOut.decided)
        | LinkDecision.ambiguous, _ =>
          let db' := setVodLinkStatus st1.db vodId LinkStatus.ambiguous
            decision.confidenceMs decision.candidates Option.none
          ({ st1 with db := db' }, AnchorOut.decided)
        | _, _ => (st1, AnchorOut.continueNext)

/-- The anchor loop of `autoLinkVod` (`for (const vodTimeMs of
vodTimesToTry)`): compute the search window, get the match-id list (cache
or rate-limited remote call, re-caching either way), run the anchor body,
and continue with the next anchor when undecided. -/
def tryAnchors (env : RemoteEnv) (vodId : Nat) (region puuid : String) (force : Bool) :
    List Int → St → (St × TryOut)
  | [], st => (st, TryOut.exhausted)
  | vodTimeMs :: restTimes, st =>
    let w := searchWindow vodTimeMs
    let startTimeSec := Int.fdiv w.1 1000
    let endTimeSec := Int.fdiv w.2 1000
    let key := cacheKey region puuid startTimeSec endTimeSec 20
    let fetched : St × Except String (List String) :=
      match alGet st.matchIdsCache key with
      | some ids => (st, Except.ok ids)
      | Option.none =>
        match env.listIds st.trace.length region puuid startTimeSec endTimeSec 20 with
        | Except.error e =>
          ({ st with trace := st.trace ++
              [{ call := RCall.listIds region puuid startTimeSec endTimeSec 20,
                 failure := some e }] }, Except.error e)
        | Except.ok ids =>
          ({ st with trace := st.trace ++
              [{ call := RCall.listIds region puuid startTimeSec endTimeSec 20,
                 failure := Option.none }] }, Except.ok ids)
    match fetched with
    | (st1, Except.error e) => (st1, TryOut.failed e)
    | (st1, Except.ok matchIds) =>
      let st2 : St := { st1 with matchIdsCache := alSet st1.matchIdsCache key matchIds }
      match anchorBody env vodId puuid force vodTimeMs matchIds st2 with
      | (st3, AnchorOut.decided) => (st3, TryOut.decided)
      | (st3, AnchorOut.failed e) => (st3, TryOut.failed e)
      | (st3, AnchorOut.continueNext) =>
        tryAnchors env vodId region puuid force restTimes st3

/-- The tail of `autoLinkVod` after the `linking` write: run the anchor
loop, then the final `not_found` / `error` writes and the `finally`
notification. -/
def autoLinkAttempt (env : RemoteEnv) (vodId : Nat) (region puuid : String)
    (force : Bool) (anchors : List Int) (st : St) : St :=
  match tryAnchors env vodId region puuid force anchors st with
  | (st', TryOut.decided) => notify st'
  | (st', TryOut.exhausted) =>
    let db' := setVodLinkStatus st'.db vodId LinkStatus.not_found
      Option.none Option.none Option.none
    notify { st' with db := db' }
  | (st', TryOut.failed e) =>
    let db' := setVodLinkStatus st'.db vodId LinkStatus.error
      Option.none Option.none (some e)
    notify { st' with db := db' }

/-- Shallow embedding of `autoLinkVod`: guards, forced unlink, credential
check, `linking` write with immediate notification, anchor loop, final
status write, and the `finally` notification. -/
def autoLinkVod (env : RemoteEnv) (st : St) (vodId : Nat) (force : Bool) : St :=
  match getVOD st.db vodId with
  | Option.none => st
  | some vod =>
    if vod.matchLinkStatus == some LinkStatus.linking && !force then st
    else if vod.matchId.isSome && !force then st
    else
      let st := if vod.matchId.isSome && force
        then { st with db := unlinkMatch st.db vodId } else st
      let apiKey := st.db.settings.riot_api_key
      let puuidOpt := st.db.settings.riot_puuid
      let region := match st.db.settings.riot_region with
        | some r => if r.isEmpty then "NA" else r
        | Option.none => "NA"
      if strFalsy apiKey || strFalsy puuidOpt then
        let db' := setVodLinkStatus st.db vodId LinkStatus.not_found
          Option.none Option.none (some "Riot account not configured")
        notify { st with db := db' }
      else
        let puuid := puuidOpt.getD ""
        let db0 := setVodLinkStatus st.db vodId LinkStatus.linking
          Option.none Option.none Option.none
        let st := notify { st with db := db0 }
        let times1 : List Int := match vod.createdAt with
          | some t => [t]
          | Option.none => []
        let times2 : List Int := match vod.modifiedAt with
          | some t => if vod.createdAt == some t then [] else [t]
          | Option.none => []
        autoLinkAttempt env vodId region puuid force (times1 ++ times2) st

/-- The body of one `autoLinkAllUnlinked` pass: reset the sweep caches,
list the unlinked recordings once, and run `autoLinkVod` for each of them
sequentially.  Returns the final state and the ids attempted (the
single-flight / queued-flag scheduling around this body is modelled
separately as `SweepStep`). -/
def autoLinkAllUnlinked (env : RemoteEnv) (st : St) : St × List Nat :=
  let st1 : St := { st with matchIdsCache := [], matchTimeCache := [] }
  let vods := listUnlinkedVods st1.db
  (vods.foldl (fun acc v => autoLinkVod env acc v.id false) st1,
   vods.map (fun v => v.id))

/-- The link status of a recording's row, if the row exists. -/
def vodStatus (st : St) (vodId : Nat) : Option (Option LinkStatus) :=
  (getVOD st.db vodId).map (fun v => v.matchLinkStatus)

/-- The link error of a recording's row, if the row exists. -/
def vodError (st : St) (vodId : Nat) : Option (Option String) :=
  (getVOD st.db vodId).map (fun v => v.matchLinkError)

@[simp] theorem updateVod_settings (db : Db) (vodId : Nat) (f : VodRow → VodRow) :
    (updateVod db vodId f).settings = db.settings := rfl

@[simp] theorem updateVod_metadata (db : Db) (vodId : Nat) (f : VodRow → VodRow) :
    (updateVod db vodId f).metadata = db.metadata := rfl

@[simp] theorem saveMatchMetadata_vods (db : Db) (m : String) (s : MetaStats) :
    (saveMatchMetadata db m s).vods = db.vods := rfl

@[simp] theorem saveMatchMetadata_settings (db : Db) (m : String) (s : MetaStats) :
    (saveMatchMetadata db m s).settings = db.settings := rfl

theorem find?_update (l : List VodRow) (vodId : Nat) (f : VodRow → VodRow)
    (hf : ∀ v, (f v).id = v.id) :
    (l.map (fun v => if v.id == vodId then f v else v)).find? (fun v => v.id == vodId)
      = (l.find? (fun v => v.id == vodId)).map f := by
  induction l with
  | nil => rfl
  | cons x xs ih =>
    simp only [List.map_cons]
    by_cases hx : (x.id == vodId) = true
    · rw [if_pos hx]
      rw [List.find?_cons_of_pos _ (by rw [hf]; exact hx)]
      have hR : List.find? (fun v => v.id == vodId) (x :: xs) = some x :=
        List.find?_cons_of_pos _ hx
      rw [hR]
      rfl
    · rw [if_neg hx]
      have hL : List.find? (fun v => v.id == vodId)
          (x :: List.map (fun v => if v.id == vodId then f v else v) xs)
          = List.find? (fun v => v.id == vodId)
              (List.map (fun v => if v.id == vodId then f v else v) xs) :=
        List.find?_cons_of_neg _ hx
      have hR : List.find? (fun v => v.id == vodId) (x :: xs)
          = List.find? (fun v => v.id == vodId) xs :=
        List.find?_cons_of_neg _ hx
      rw [hL, hR]
      exact ih

theorem getVOD_updateVod (db : Db) (vodId : Nat) (f : VodRow → VodRow)
    (hf : ∀ v, (f v).id = v.id) :
    getVOD (updateVod db vodId f) vodId = (getVOD db vodId).map f := by
  unfold getVOD updateVod
  exact find?_update db.vods vodId f hf

theorem getVOD_setVodLinkStatus (db : Db) (vodId : Nat) (status : LinkStatus)
    (c : Option Int) (cands : Option (List String)) (e : Option String) :
    getVOD (setVodLinkStatus db vodId status c cands e) vodId
      = (getVOD db vodId).map (fun v =>
          { v with matchLinkStatus := some status, matchLinkConfidenceMs := c,
                   matchLinkCandidates := cands, matchLinkError := e }) :=
  getVOD_updateVod db vodId _ (fun _ => rfl)

theorem getVOD_linkMatch (db : Db) (vodId : Nat) (mid : String) :
    getVOD (linkMatch db vodId mid) vodId
      = (getVOD db vodId).map (fun v =>
          { v with matchId := some mid, matchLinkStatus := some LinkStatus.linked,
                   matchLinkError := Option.none }) :=
  getVOD_updateVod db vodId _ (fun _ => rfl)

theorem getVOD_unlinkMatch (db : Db) (vodId : Nat) :
    getVOD (unlinkMatch db vodId) vodId
      = (getVOD db vodId).map (fun v =>
          { v with matchId := Option.none, matchLinkStatus := Option.none,
                   matchLinkConfidenceMs := Option.none,
                   matchLinkCandidates := Option.none,
                   matchLinkError := Option.none }) :=
  getVOD_updateVod db vodId _ (fun _ => rfl)

/-- The candidate-detail loop touches only the caches, the trace and the
metadata store — never the `vods` rows or the settings. -/
theorem fetchCandidates_preserves (env : RemoteEnv) (puuid : String) :
    ∀ (ids : List String) (st : St) (acc : List Candidate),
      (fetchCandidates env puuid ids st acc).1.db.vods = st.db.vods ∧
      (fetchCandidates env puuid ids st acc).1.db.settings = st.db.settings ∧
      (fetchCandidates env puuid ids st acc).1.notifications = st.notifications := by
  intro ids
  induction ids with
  | nil => intro st acc; exact ⟨rfl, rfl, rfl⟩
  | cons m rest ih =>
    intro st acc
    simp only [fetchCandidates]
    split
    · exact ih _ _
    · split
      · exact ⟨rfl, rfl, rfl⟩
      · split
        · split
          · exact ih _ _
          · exact ih _ _
        · exact ih _ _

/-- A remote environment with no matches and failing detail fetches, used
by concrete runs. -/
def envEmpty : RemoteEnv :=
  { listIds := fun _ _ _ _ _ _ => Except.ok [],
    fetchMatch := fun _ _ => Except.error "unreachable" }

/-- An empty store without credentials. -/
def dbEmpty : Db :=
  { vods := [], metadata := [],
    settings := { riot_api_key := Option.none, riot_puuid := Option.none,
                  riot_region := Option.none } }

/-- An empty auto-linker state over `dbEmpty`. -/
def stEmpty : St :=
  { db := dbEmpty, matchIdsCache := [], matchTimeCache := [], trace := [],
    notifications := 0 }

/-- A fresh unlinked recording row. -/
def mkRow (id : Nat) (c m : Option Int) : VodRow :=
  { id := id, createdAt := c, modifiedAt := m, matchId := Option.none,
    matchLinkStatus := Option.none, matchLinkConfidenceMs := Option.none,
    matchLinkCandidates := Option.none, matchLinkError := Option.none }

/-- C10: for a recording id with no row in the store, `autoLinkVod` is a
complete no-op — no link-state write, no unlink, no remote call, no
notification; the whole state is returned unchanged. -/
theorem autoLinkVod_missing_vod_noop (env : RemoteEnv) (st : St) (vodId : Nat)
    (force : Bool) (h : getVOD st.db vodId = Option.none) :
    autoLinkVod env st vodId force = st := by
  unfold autoLinkVod
  rw [h]

/-- Witness for the missing-recording no-op theorem: id 7 over the empty
store. -/
theorem autoLinkVod_missing_vod_noop_witness :
    getVOD stEmpty.db 7 = Option.none ∧ autoLinkVod envEmpty stEmpty 7 true = stEmpty :=
  ⟨rfl, autoLinkVod_missing_vod_noop envEmpty stEmpty 7 true rfl⟩

/-- C9: when the credentials (API key, account puuid, region) are all
absent, a `linkOne` attempt that passes the linking/linked guards sets the
recording to `not_found` with the explanatory message — never to `error` —
and makes no remote call. -/
theorem autoLinkVod_unconfigured (env : RemoteEnv) (st : St) (vodId : Nat) (force : Bool)
    (vod : VodRow) (hv : getVOD st.db vodId = some vod)
    (hlk : (vod.matchLinkStatus == some LinkStatus.linking && !force) = false)
    (hmid : (vod.matchId.isSome && !force) = false)
    (hkey : st.db.settings.riot_api_key = Option.none)
    (_hpuuid : st.db.settings.riot_puuid = Option.none)
    (_hregion : st.db.settings.riot_region = Option.none) :
    vodStatus (autoLinkVod env st vodId force) vodId = some (some LinkStatus.not_found) ∧
    vodError (autoLinkVod env st vodId force) vodId
      = some (some "Riot account not configured") ∧
    (autoLinkVod env st vodId force).trace = st.trace := by
  unfold autoLinkVod
  rw [hv]
  simp only [hlk, hmid, Bool.false_eq_true, if_false]
  by_cases hforce : (vod.matchId.isSome && force) = true
  · simp only [hforce, if_true]
    have hset : (unlinkMatch st.db vodId).settings = st.db.settings := rfl
    rw [hset, hkey]
    simp only [strFalsy, Bool.true_or, if_true]
    refine ⟨?_, ?_, rfl⟩
    · simp [vodStatus, notify, getVOD_setVodLinkStatus, getVOD_unlinkMatch, hv]
    · simp [vodError, notify, getVOD_setVodLinkStatus, getVOD_unlinkMatch, hv]
  · rw [if_neg hforce, hkey]
    simp only [strFalsy, Bool.true_or, if_true]
    refine ⟨?_, ?_, rfl⟩
    · simp [vodStatus, notify, getVOD_setVodLinkStatus, hv]
    · simp [vodError, notify, getVOD_setVodLinkStatus, hv]

/-- Witness for the unconfigured-credentials theorem: a fresh recording
over a store without credentials. -/
theorem autoLinkVod_unconfigured_witness :
    getVOD { stEmpty with
        db := { dbEmpty with vods := [mkRow 1 (some 0) (some 0)] } }.db 1
      = some (mkRow 1 (some 0) (some 0)) ∧
    (vodStatus (autoLinkVod envEmpty
        { stEmpty with db := { dbEmpty with vods := [mkRow 1 (some 0) (some 0)] } } 1 false) 1
      = some (some LinkStatus.not_found) ∧
    vodError (autoLinkVod envEmpty
        { stEmpty with db := { dbEmpty with vods := [mkRow 1 (some 0) (some 0)] } } 1 false) 1
      = some (some "Riot account not configured") ∧
    (autoLinkVod envEmpty
        { stEmpty with db := { dbEmpty with vods := [mkRow 1 (some 0) (some 0)] } } 1 false).trace
      = ([] : List TraceEntry)) :=
  ⟨rfl, autoLinkVod_unconfigured envEmpty _ 1 false (mkRow 1 (some 0) (some 0))
    rfl rfl rfl rfl rfl rfl⟩

/-- A remote environment whose id-list queries return no matches, used to
exhibit the query window in the remote-call trace. -/
def envNoMatches : RemoteEnv :=
  { listIds := fun _ _ _ _ _ _ => Except.ok [],
    fetchMatch := fun _ _ => Except.error "unreachable" }

/-- A configured store with one fresh recording whose anchor is 0. -/
def stWindow : St :=
  { db := { vods := [mkRow 1 (some 0) (some 0)], metadata := [],
            settings := { riot_api_key := some "k", riot_puuid := some "p",
                          riot_region := Option.none } },
    matchIdsCache := [], matchTimeCache := [], trace := [], notifications := 0 }

/-- C6 counterexample: the remote query window's lower bound is
`anchor − 2 * 60_000`, not `anchor − earlyToleranceMs`: a run with anchor
0 issues its id-list query with `startTime = −120` s, while the claim
predicts `−60` s (the candidate filter's `earlyToleranceMs` is 60 s). -/
theorem searchWindow_counterexample :
    (autoLinkVod envNoMatches stWindow 1 false).trace
        = [{ call := RCall.listIds "NA" "p" (-120) 5400 20, failure := Option.none }] ∧
    Int.fdiv ((searchWindow 0).1) 1000 = -120 ∧
    Int.fdiv (0 - earlyToleranceMs) 1000 = -60 ∧
    ((-120 : Int) = -60 → False) := by
  refine ⟨by decide, by decide, by decide, by decide⟩

/-- C6 (amended): for every anchor, the remote-query window is
`[anchor − 2·earlyToleranceMs, anchor + 90 min]` — its lower bound
precedes the anchor by twice the 60 s tolerance used by the candidate
filter, and its upper bound is the 90-minute game-duration buffer. -/
theorem searchWindow_spec :
    (∀ t : Int, searchWindow t = (t - 2 * earlyToleranceMs, t + 90 * 60000)) ∧
    (∀ t : Int, (searchWindow t).1 = t - 120000 ∧ (searchWindow t).2 = t + 5400000) ∧
    2 * earlyToleranceMs = 2 * ALLOW_EARLY_MS := by
  refine ⟨fun t => rfl, fun t => ⟨?_, ?_⟩, rfl⟩
  · show t - 2 * 60000 = t - 120000
    norm_num
  · show t + 90 * 60000 = t + 5400000
    norm_num

theorem mem_sortByKey {α : Type} (key : α → Int) (l : List α) (y : α) :
    y ∈ sortByKey key l ↔ y ∈ l := by
  induction l with
  | nil => simp [sortByKey]
  | cons x xs ih => simp [sortByKey, mem_insertByKey, ih]

theorem getVOD_eq_of_vods (db db' : Db) (h : db'.vods = db.vods) (vodId : Nat) :
    getVOD db' vodId = getVOD db vodId := by
  unfold getVOD
  rw [h]

/-- In forced mode one anchor iteration never links: an undecided outcome
leaves the `vods` rows untouched, and a decided outcome wrote `ambiguous`
with the head-delta confidence and the first five ids of the forced
ranking. -/
theorem anchorBody_force (env : RemoteEnv) (vodId : Nat) (puuid : String) (t : Int)
    (matchIds : List String) (st : St) :
    ((anchorBody env vodId puuid true t matchIds st).2 ≠ AnchorOut.decided →
      (anchorBody env vodId puuid true t matchIds st).1.db.vods = st.db.vods) ∧
    ((anchorBody env vodId puuid true t matchIds st).2 = AnchorOut.decided →
      ∃ cands r0 rrest, forceRank t cands = r0 :: rrest ∧
        getVOD (anchorBody env vodId puuid true t matchIds st).1.db vodId
          = (getVOD st.db vodId).map (fun v =>
              { v with matchLinkStatus := some LinkStatus.ambiguous,
                       matchLinkConfidenceMs := some (max 0 r0.2),
                       matchLinkCandidates :=
                         some (((r0 :: rrest).take 5).map (fun p => p.1)),
                       matchLinkError := Option.none })) := by
  unfold anchorBody
  by_cases hemp : matchIds.isEmpty
  · simp only [hemp, if_true]
    exact ⟨fun _ => trivial, fun h => by simp at h⟩
  · simp only [hemp, Bool.false_eq_true, if_false]
    rcases hfc : fetchCandidates env puuid (matchIds.take MAX_MATCH_DETAILS) st []
      with ⟨st1, out⟩
    have hpres := (fetchCandidates_preserves env puuid (matchIds.take MAX_MATCH_DETAILS) st []).1
    rw [hfc] at hpres
    cases out with
    | failed e =>
      simp only [hfc]
      exact ⟨fun _ => hpres, fun h => by simp at h⟩
    | ok cands =>
      simp only [hfc]
      rcases hr : forceRank t cands with _ | ⟨r0, rrest⟩
      · simp only [hr]
        exact ⟨fun _ => hpres, fun h => by simp at h⟩
      · simp only [hr]
        refine ⟨fun h => absurd rfl h, fun _ => ⟨cands, r0, rrest, hr, ?_⟩⟩
        show getVOD (setVodLinkStatus st1.db vodId LinkStatus.ambiguous
            (some (max 0 r0.2)) (some (((r0 :: rrest).take 5).map (fun p => p.1)))
            Option.none) vodId = _
        rw [getVOD_setVodLinkStatus, getVOD_eq_of_vods st.db st1.db hpres]

/-- Equation form of `anchorBody_force`, convenient after `split`. -/
theorem anchorBody_force_eq (env : RemoteEnv) (vodId : Nat) (puuid : String) (t : Int)
    (ids : List String) (st2 st3 : St) (aout : AnchorOut)
    (heq : anchorBody env vodId puuid true t ids st2 = (st3, aout)) :
    (aout ≠ AnchorOut.decided → st3.db.vods = st2.db.vods) ∧
    (aout = AnchorOut.decided → ∃ cands r0 rrest, forceRank t cands = r0 :: rrest ∧
      getVOD st3.db vodId = (getVOD st2.db vodId).map (fun v =>
        { v with matchLinkStatus := some LinkStatus.ambiguous,
                 matchLinkConfidenceMs := some (max 0 r0.2),
                 matchLinkCandidates := some (((r0 :: rrest).take 5).map (fun p => p.1)),
                 matchLinkError := Option.none })) := by
  have h := anchorBody_force env vodId puuid t ids st2
  rw [heq] at h
  exact h

/-- In forced mode the anchor loop never links: an undecided outcome leaves
the `vods` rows untouched, and a decided outcome wrote `ambiguous` with the
head-delta confidence and the first five ids of the forced ranking of some
anchor's candidates. -/
theorem tryAnchors_force (env : RemoteEnv) (vodId : Nat) (region puuid : String) :
    ∀ (anchors : List Int) (st : St),
      ((tryAnchors env vodId region puuid true anchors st).2 ≠ TryOut.decided →
        (tryAnchors env vodId region puuid true anchors st).1.db.vods = st.db.vods) ∧
      ((tryAnchors env vodId region puuid true anchors st).2 = TryOut.decided →
        ∃ t cands r0 rrest, t ∈ anchors ∧ forceRank t cands = r0 :: rrest ∧
          getVOD (tryAnchors env vodId region puuid true anchors st).1.db vodId
            = (getVOD st.db vodId).map (fun v =>
                { v with matchLinkStatus := some LinkStatus.ambiguous,
                         matchLinkConfidenceMs := some (max 0 r0.2),
                         matchLinkCandidates :=
                           some (((r0 :: rrest).take 5).map (fun p => p.1)),
                         matchLinkError := Option.none })) := by
  intro anchors
  induction anchors with
  | nil =>
    intro st
    exact ⟨fun _ => rfl, fun h => by simp [tryAnchors] at h⟩
  | cons t rest ih =>
    intro st
    simp only [tryAnchors]
    rcases halg : alGet st.matchIdsCache
        (cacheKey region puuid (Int.fdiv (searchWindow t).1 1000)
          (Int.fdiv (searchWindow t).2 1000) 20) with _ | ids
    · simp only [halg]
      rcases hlist : env.listIds st.trace.length region puuid
          (Int.fdiv (searchWindow t).1 1000) (Int.fdiv (searchWindow t).2 1000) 20
        with e | ids
      · simp only [hlist]
        exact ⟨fun _ => trivial, fun h => by simp at h⟩
      · simp only [hlist]
        split
        · rename_i st3 heq
          refine ⟨fun hne => absurd rfl hne, fun _ => ?_⟩
          obtain ⟨cands, r0, rrest, hr, hget⟩ :=
            (anchorBody_force_eq env vodId puuid t ids _ _ _ heq).2 rfl
          exact ⟨t, cands, r0, rrest, List.mem_cons_self _ _, hr, hget⟩
        · rename_i st3 e heq
          have hv3 := (anchorBody_force_eq env vodId puuid t ids _ _ _ heq).1
            (by intro hc; cases hc)
          exact ⟨fun _ => hv3, fun hdec => by simp at hdec⟩
        · rename_i st3 heq
          have hv3 : st3.db.vods = st.db.vods :=
            (anchorBody_force_eq env vodId puuid t ids _ _ _ heq).1 (by intro hc; cases hc)
          obtain ⟨ihA, ihB⟩ := ih st3
          refine ⟨fun hne => (ihA hne).trans hv3, fun hdec => ?_⟩
          obtain ⟨t', cands, r0, rrest, ht', hr, hget⟩ := ihB hdec
          refine ⟨t', cands, r0, rrest, List.mem_cons_of_mem _ ht', hr, ?_⟩
          rw [hget, getVOD_eq_of_vods st.db st3.db hv3]
    · simp only [halg]
      split
      · rename_i st3 heq
        refine ⟨fun hne => absurd rfl hne, fun _ => ?_⟩
        obtain ⟨cands, r0, rrest, hr, hget⟩ :=
          (anchorBody_force_eq env vodId puuid t ids _ _ _ heq).2 rfl
        exact ⟨t, cands, r0, rrest, List.mem_cons_self _ _, hr, hget⟩
      · rename_i st3 e heq
        have hv3 := (anchorBody_force_eq env vodId puuid t ids _ _ _ heq).1
          (by intro hc; cases hc)
        exact ⟨fun _ => hv3, fun hdec => by simp at hdec⟩
      · rename_i st3 heq
        have hv3 : st3.db.vods = st.db.vods :=
          (anchorBody_force_eq env vodId puuid t ids _ _ _ heq).1 (by intro hc; cases hc)
        obtain ⟨ihA, ihB⟩ := ih st3
        refine ⟨fun hne => (ihA hne).trans hv3, fun hdec => ?_⟩
        obtain ⟨t', cands, r0, rrest, ht', hr, hget⟩ := ihB hdec
        refine ⟨t', cands, r0, rrest, List.mem_cons_of_mem _ ht', hr, ?_⟩
        rw [hget, getVOD_eq_of_vods st.db st3.db hv3]

/-- Equation form of `tryAnchors_force`. -/
theorem tryAnchors_force_eq (env : RemoteEnv) (vodId : Nat) (region puuid : String)
    (anchors : List Int) (st st' : St) (out : TryOut)
    (heq : tryAnchors env vodId region puuid true anchors st = (st', out)) :
    (out ≠ TryOut.decided → st'.db.vods = st.db.vods) ∧
    (out = TryOut.decided →
      ∃ t cands r0 rrest, t ∈ anchors ∧ forceRank t cands = r0 :: rrest ∧
        getVOD st'.db vodId = (getVOD st.db vodId).map (fun v =>
          { v with matchLinkStatus := some LinkStatus.ambiguous,
                   matchLinkConfidenceMs := some (max 0 r0.2),
                   matchLinkCandidates := some (((r0 :: rrest).take 5).map (fun p => p.1)),
                   matchLinkError := Option.none })) := by
  have h := tryAnchors_force env vodId region puuid anchors st
  rw [heq] at h
  exact h

/-- After a forced anchor loop the recording ends `not_found`, `error`, or
`ambiguous` with content taken from the forced ranking — never `linked`. -/
theorem autoLinkAttempt_force_cases (env : RemoteEnv) (vodId : Nat)
    (region puuid : String) (anchors : List Int) (st : St) (vod : VodRow)
    (hv : getVOD st.db vodId = some vod) :
    vodStatus (autoLinkAttempt env vodId region puuid true anchors st) vodId
        = some (some LinkStatus.not_found) ∨
    (∃ e, vodStatus (autoLinkAttempt env vodId region puuid true anchors st) vodId
        = some (some LinkStatus.error) ∧
      vodError (autoLinkAttempt env vodId region puuid true anchors st) vodId
        = some (some e)) ∨
    (∃ t cands r0 rrest, forceRank t cands = r0 :: rrest ∧
      (getVOD (autoLinkAttempt env vodId region puuid true anchors st).db vodId).map
          (fun v => (v.matchLinkStatus, v.matchLinkConfidenceMs, v.matchLinkCandidates))
        = some (some LinkStatus.ambiguous, some (max 0 r0.2),
                some (((r0 :: rrest).take 5).map (fun p => p.1)))) := by
  unfold autoLinkAttempt
  split
  · rename_i st' heq
    obtain ⟨t, cands, r0, rrest, _, hr, hget⟩ :=
      (tryAnchors_force_eq env vodId region puuid anchors st st' _ heq).2 rfl
    right; right
    refine ⟨t, cands, r0, rrest, hr, ?_⟩
    show (getVOD st'.db vodId).map _ = _
    rw [hget, hv]
    rfl
  · rename_i st' heq
    have hvods : st'.db.vods = st.db.vods :=
      (tryAnchors_force_eq env vodId region puuid anchors st st' _ heq).1
        (by intro hc; cases hc)
    left
    show (getVOD (setVodLinkStatus st'.db vodId LinkStatus.not_found
        Option.none Option.none Option.none) vodId).map _ = _
    rw [getVOD_setVodLinkStatus, getVOD_eq_of_vods st.db st'.db hvods, hv]
    rfl
  · rename_i st' e heq
    have hvods : st'.db.vods = st.db.vods :=
      (tryAnchors_force_eq env vodId region puuid anchors st st' _ heq).1
        (by intro hc; cases hc)
    right; left
    refine ⟨e, ?_, ?_⟩
    · show (getVOD (setVodLinkStatus st'.db vodId LinkStatus.error
          Option.none Option.none (some e)) vodId).map _ = _
      rw [getVOD_setVodLinkStatus, getVOD_eq_of_vods st.db st'.db hvods, hv]
      rfl
    · show (getVOD (setVodLinkStatus st'.db vodId LinkStatus.error
          Option.none Option.none (some e)) vodId).map _ = _
      rw [getVOD_setVodLinkStatus, getVOD_eq_of_vods st.db st'.db hvods, hv]
      rfl

/-- A forced `autoLinkVod` run on an existing recording ends `not_found`,
`error`, or `ambiguous` with content from the forced ranking — never
`linked`. -/
theorem autoLinkVod_force_cases (env : RemoteEnv) (st : St) (vodId : Nat)
    (vod : VodRow) (hv : getVOD st.db vodId = some vod) :
    vodStatus (autoLinkVod env st vodId true) vodId = some (some LinkStatus.not_found) ∨
    (∃ e, vodStatus (autoLinkVod env st vodId true) vodId = some (some LinkStatus.error) ∧
      vodError (autoLinkVod env st vodId true) vodId = some (some e)) ∨
    (∃ t cands r0 rrest, forceRank t cands = r0 :: rrest ∧
      (getVOD (autoLinkVod env st vodId true).db vodId).map
          (fun v => (v.matchLinkStatus, v.matchLinkConfidenceMs, v.matchLinkCandidates))
        = some (some LinkStatus.ambiguous, some (max 0 r0.2),
                some (((r0 :: rrest).take 5).map (fun p => p.1)))) := by
  unfold autoLinkVod
  rw [hv]
  simp only [Bool.not_true, Bool.and_false, Bool.false_eq_true, if_false]
  by_cases hm : (vod.matchId.isSome && true) = true
  · simp only [hm, if_true]
    by_cases hc : (strFalsy (unlinkMatch st.db vodId).settings.riot_api_key
        || strFalsy (unlinkMatch st.db vodId).settings.riot_puuid) = true
    · simp only [hc, if_true]
      left
      simp [vodStatus, notify, getVOD_setVodLinkStatus, getVOD_unlinkMatch, hv]
    · rw [if_neg hc]
      refine autoLinkAttempt_force_cases env vodId _ _ _ _
        { vod with matchId := Option.none, matchLinkStatus := some LinkStatus.linking,
                   matchLinkConfidenceMs := Option.none,
                   matchLinkCandidates := Option.none,
                   matchLinkError := Option.none } ?_
      show getVOD (setVodLinkStatus (unlinkMatch st.db vodId) vodId LinkStatus.linking
          Option.none Option.none Option.none) vodId = some _
      rw [getVOD_setVodLinkStatus, getVOD_unlinkMatch, hv]
      rfl
  · rw [if_neg hm]
    by_cases hc : (strFalsy st.db.settings.riot_api_key
        || strFalsy st.db.settings.riot_puuid) = true
    · simp only [hc, if_true]
      left
      simp [vodStatus, notify, getVOD_setVodLinkStatus, hv]
    · rw [if_neg hc]
      refine autoLinkAttempt_force_cases env vodId _ _ _ _
        { vod with matchLinkStatus := some LinkStatus.linking,
                   matchLinkConfidenceMs := Option.none,
                   matchLinkCandidates := Option.none,
                   matchLinkError := Option.none } ?_
      show getVOD (setVodLinkStatus st.db vodId LinkStatus.linking
          Option.none Option.none Option.none) vodId = some _
      rw [getVOD_setVodLinkStatus, hv]
      rfl

/-- C5: a forced `linkOne` attempt never auto-links — the recording of a
forced attempt is never left `linked`; whenever it ends `ambiguous`, the
stored candidate list is the first five ids of the forced ranking of some
anchor's candidates with `confidenceMs = max 0 (best signed delta)`; and
the forced ranking is sorted ascending by signed delta and contains only
candidates passing the early-tolerance filter. -/
theorem autoLinkVod_forced_ambiguous :
    (∀ (env : RemoteEnv) (st : St) (vodId : Nat) (vod : VodRow),
      getVOD st.db vodId = some vod →
      vodStatus (autoLinkVod env st vodId true) vodId ≠ some (some LinkStatus.linked)) ∧
    (∀ (env : RemoteEnv) (st : St) (vodId : Nat) (vod : VodRow),
      getVOD st.db vodId = some vod →
      vodStatus (autoLinkVod env st vodId true) vodId = some (some LinkStatus.ambiguous) →
      ∃ t cands r0 rrest, forceRank t cands = r0 :: rrest ∧
        (getVOD (autoLinkVod env st vodId true).db vodId).map
            (fun v => (v.matchLinkConfidenceMs, v.matchLinkCandidates))
          = some (some (max 0 r0.2),
                  some (((r0 :: rrest).take 5).map (fun p => p.1)))) ∧
    (∀ (anchor : Int) (cs : List Candidate),
      (forceRank anchor cs).Pairwise (fun a b => a.2 ≤ b.2) ∧
      ∀ p ∈ forceRank anchor cs, -ALLOW_EARLY_MS ≤ p.2) := by
  refine ⟨?_, ?_, ?_⟩
  · intro env st vodId vod hv hcon
    rcases autoLinkVod_force_cases env st vodId vod hv with h | ⟨e, h, _⟩ |
      ⟨t, cands, r0, rrest, _, h⟩
    · have := h.symm.trans hcon
      simp at this
    · have := h.symm.trans hcon
      simp at this
    · rcases hg : getVOD (autoLinkVod env st vodId true).db vodId with _ | v0
      · rw [hg] at h
        simp at h
      · rw [hg] at h
        simp only [Option.map_some', Option.some.injEq, Prod.mk.injEq] at h
        have hstat : vodStatus (autoLinkVod env st vodId true) vodId
            = some v0.matchLinkStatus := by
          unfold vodStatus
          rw [hg]
          rfl
        rw [hstat, h.1] at hcon
        simp at hcon
  · intro env st vodId vod hv hamb
    rcases autoLinkVod_force_cases env st vodId vod hv with h | ⟨e, h, _⟩ |
      ⟨t, cands, r0, rrest, hr, h⟩
    · have := h.symm.trans hamb
      simp at this
    · have := h.symm.trans hamb
      simp at this
    · refine ⟨t, cands, r0, rrest, hr, ?_⟩
      rcases hg : getVOD (autoLinkVod env st vodId true).db vodId with _ | v0
      · rw [hg] at h
        simp at h
      · rw [hg] at h
        simp only [Option.map_some', Option.some.injEq, Prod.mk.injEq] at h
        simp only [Option.map_some', Option.some.injEq, Prod.mk.injEq]
        exact ⟨h.2.1, h.2.2⟩
  · intro anchor cs
    constructor
    · exact sortByKey_pairwise _ _
    · intro p hp
      unfold forceRank at hp
      rw [mem_sortByKey, List.mem_filter] at hp
      have := hp.2
      simpa using this

/-- Remote environment for the forced-relink witness: three candidates, the
first of which (delta 90 s) would score `linked` in normal mode. -/
def envForce : RemoteEnv :=
  { listIds := fun _ _ _ _ _ _ => Except.ok ["a", "b", "c"],
    fetchMatch := fun _ m => Except.ok
      { game_datetime :=
          some (if m == "a" then 90000 else if m == "b" then 400000 else 500000),
        game_length := some 0,
        participants := [] } }

/-- Configured store with one fresh recording, anchor 0, for the forced
witness. -/
def stForce : St :=
  { db := { vods := [mkRow 1 (some 0) (some 0)], metadata := [],
            settings := { riot_api_key := some "k", riot_puuid := some "p",
                          riot_region := Option.none } },
    matchIdsCache := [], matchTimeCache := [], trace := [], notifications := 0 }

/-- Witness for the forced-relink theorem: with three tolerance-passing
candidates, one of which would score `linked` normally, the forced attempt
ends `ambiguous` with all three ids ranked by delta. -/
theorem autoLinkVod_forced_ambiguous_witness :
    getVOD stForce.db 1 = some (mkRow 1 (some 0) (some 0)) ∧
    vodStatus (autoLinkVod envForce stForce 1 true) 1 ≠ some (some LinkStatus.linked) ∧
    vodStatus (autoLinkVod envForce stForce 1 true) 1 = some (some LinkStatus.ambiguous) ∧
    vodError (autoLinkVod envForce stForce 1 true) 1 = some Option.none ∧
    (getVOD (autoLinkVod envForce stForce 1 true).db 1).map
        (fun v => (v.matchLinkConfidenceMs, v.matchLinkCandidates))
      = some (some 90000, some ["a", "b", "c"]) ∧
    (scoreCandidates 0 [⟨"a", 90000, 90000⟩, ⟨"b", 400000, 400000⟩,
        ⟨"c", 500000, 500000⟩]).status = LinkDecision.linked := by
  refine ⟨rfl, autoLinkVod_forced_ambiguous.1 envForce stForce 1 _ rfl,
    by decide, by decide, by decide, by decide⟩

/-- A run of trace entries with no failures. -/
def cleanEntries (l : List TraceEntry) : Prop := ∀ e ∈ l, e.failure = Option.none

theorem cleanEntries_nil : cleanEntries [] := fun e he => absurd he (List.not_mem_nil e)

theorem cleanEntries_append {l1 l2 : List TraceEntry}
    (h1 : cleanEntries l1) (h2 : cleanEntries l2) : cleanEntries (l1 ++ l2) := by
  intro e he
  rcases List.mem_append.mp he with he | he
  · exact h1 e he
  · exact h2 e he

/-- The candidate-detail loop appends one trace entry per remote call; on
success all new entries are clean, and on failure the failing `fetchDetail`
entry is the last new entry, preceded only by clean entries. -/
theorem fetchCandidates_trace (env : RemoteEnv) (puuid : String) :
    ∀ (ids : List String) (st : St) (acc : List Candidate),
      ∃ new, (fetchCandidates env puuid ids st acc).1.trace = st.trace ++ new ∧
        (∀ cands, (fetchCandidates env puuid ids st acc).2 = FetchOut.ok cands →
          cleanEntries new) ∧
        (∀ er, (fetchCandidates env puuid ids st acc).2 = FetchOut.failed er →
          ∃ pre m, new = pre ++ [{ call := RCall.fetchDetail m, failure := some er }] ∧
            cleanEntries pre) := by
  intro ids
  induction ids with
  | nil =>
    intro st acc
    refine ⟨[], by simp [fetchCandidates], fun _ _ => cleanEntries_nil, fun er h => ?_⟩
    simp [fetchCandidates] at h
  | cons m rest ih =>
    intro st acc
    simp only [fetchCandidates]
    split
    · exact ih _ _
    · split
      · rename_i e _
        refine ⟨[{ call := RCall.fetchDetail m, failure := some e }], rfl,
          fun cands h => ?_, fun er h => ?_⟩
        · simp at h
        · simp only [Option.some.injEq] at h
          cases h
          exact ⟨[], m, rfl, cleanEntries_nil⟩
      · split
        · split
          · obtain ⟨new1, htr, hok, hfail⟩ := ih _ _
            refine ⟨{ call := RCall.fetchDetail m, failure := Option.none } :: new1,
              ?_, fun cands h => ?_, fun er h => ?_⟩
            · rw [htr]
              simp
            · intro e he
              rcases List.mem_cons.mp he with he | he
              · subst he; rfl
              · exact hok cands h e he
            · obtain ⟨pre, m', hnew, hpre⟩ := hfail er h
              refine ⟨{ call := RCall.fetchDetail m, failure := Option.none } :: pre,
                m', by rw [hnew]; rfl, ?_⟩
              intro e he
              rcases List.mem_cons.mp he with he | he
              · subst he; rfl
              · exact hpre e he
          · obtain ⟨new1, htr, hok, hfail⟩ := ih _ _
            refine ⟨{ call := RCall.fetchDetail m, failure := Option.none } :: new1,
              ?_, fun cands h => ?_, fun er h => ?_⟩
            · rw [htr]
              simp
            · intro e he
              rcases List.mem_cons.mp he with he | he
              · subst he; rfl
              · exact hok cands h e he
            · obtain ⟨pre, m', hnew, hpre⟩ := hfail er h
              refine ⟨{ call := RCall.fetchDetail m, failure := Option.none } :: pre,
                m', by rw [hnew]; rfl, ?_⟩
              intro e he
              rcases List.mem_cons.mp he with he | he
              · subst he; rfl
              · exact hpre e he
        · obtain ⟨new1, htr, hok, hfail⟩ := ih _ _
          refine ⟨{ call := RCall.fetchDetail m, failure := Option.none } :: new1,
            ?_, fun cands h => ?_, fun er h => ?_⟩
          · rw [htr]
            simp
          · intro e he
            rcases List.mem_cons.mp he with he | he
            · subst he; rfl
            · exact hok cands h e he
          · obtain ⟨pre, m', hnew, hpre⟩ := hfail er h
            refine ⟨{ call := RCall.fetchDetail m, failure := Option.none } :: pre,
              m', by rw [hnew]; rfl, ?_⟩
            intro e he
            rcases List.mem_cons.mp he with he | he
            · subst he; rfl
            · exact hpre e he

/-- The metadata-ensure call never touches the `vods` rows. -/
theorem fetchMatchMetadataCall_preserves (env : RemoteEnv) (matchId : String) (st : St) :
    (fetchMatchMetadataCall env matchId st).1.db.vods = st.db.vods := by
  simp only [fetchMatchMetadataCall]
  split
  · rfl
  · split
    · rfl
    · split
      · rfl
      · split
        · rfl
        · rfl

/-- The metadata-ensure call makes at most one remote call, a `fetchMeta`,
and any failure it logs is also the error it returns (which the caller
absorbs). -/
theorem fetchMatchMetadataCall_trace (env : RemoteEnv) (matchId : String) (st : St) :
    ∃ new, (fetchMatchMetadataCall env matchId st).1.trace = st.trace ++ new ∧
      new.length ≤ 1 ∧
      (∀ e ∈ new, e.call = RCall.fetchMeta matchId) ∧
      (∀ e ∈ new, ∀ f, e.failure = some f →
        (fetchMatchMetadataCall env matchId st).2 = some f) := by
  simp only [fetchMatchMetadataCall]
  split
  · exact ⟨[], by simp, by simp, by simp, by simp⟩
  · split
    · exact ⟨[], by simp, by simp, by simp, by simp⟩
    · split
      · rename_i e _
        refine ⟨[{ call := RCall.fetchMeta matchId, failure := some e }], rfl,
          by simp, ?_, ?_⟩
        · intro e' he'
          rw [List.mem_singleton] at he'
          subst he'
          rfl
        · intro e' he' f hf
          rw [List.mem_singleton] at he'
          subst he'
          simp only [Option.some.injEq] at hf
          rw [hf]
      · split
        · refine ⟨[{ call := RCall.fetchMeta matchId, failure := Option.none }], rfl,
            by simp, ?_, ?_⟩
          · intro e' he'
            rw [List.mem_singleton] at he'
            subst he'
            rfl
          · intro e' he' f hf
            rw [List.mem_singleton] at he'
            subst he'
            simp at hf
        · refine ⟨[{ call := RCall.fetchMeta matchId, failure := Option.none }], rfl,
            by simp, ?_, ?_⟩
          · intro e' he'
            rw [List.mem_singleton] at he'
            subst he'
            rfl
          · intro e' he' f hf
            rw [List.mem_singleton] at he'
            subst he'
            simp at hf

/-- One anchor iteration preserves the existence of the recording's row. -/
theorem anchorBody_row (env : RemoteEnv) (vodId : Nat) (puuid : String) (force : Bool)
    (t : Int) (matchIds : List String) (st : St) (v : VodRow)
    (hrow : getVOD st.db vodId = some v) :
    ∃ v', getVOD (anchorBody env vodId puuid force t matchIds st).1.db vodId = some v' := by
  simp only [anchorBody]
  split
  · exact ⟨v, hrow⟩
  · split
    · rename_i st1 e heq
      have hp := (fetchCandidates_preserves env puuid (matchIds.take MAX_MATCH_DETAILS) st []).1
      rw [heq] at hp
      exact ⟨v, by rw [getVOD_eq_of_vods st.db st1.db hp, hrow]⟩
    · rename_i st1 cands heq
      have hp := (fetchCandidates_preserves env puuid (matchIds.take MAX_MATCH_DETAILS) st []).1
      rw [heq] at hp
      have h1 : getVOD st1.db vodId = some v := by
        rw [getVOD_eq_of_vods st.db st1.db hp, hrow]
      split
      · split
        · exact ⟨v, h1⟩
        · exact ⟨_, by rw [getVOD_setVodLinkStatus, h1]; rfl⟩
      · split
        · rename_i mid hA hB
          exact ⟨_, by
            rw [getVOD_eq_of_vods _ _ (fetchMatchMetadataCall_preserves env mid _),
              getVOD_setVodLinkStatus, getVOD_linkMatch, h1]
            rfl⟩
        · exact ⟨_, by rw [getVOD_setVodLinkStatus, h1]; rfl⟩
        · exact ⟨v, h1⟩

/-- One anchor iteration appends one trace entry per remote call: a
`continueNext` outcome adds only clean entries, a `failed` outcome ends in
the failing non-meta entry preceded by clean ones, and a `decided` outcome
is clean except possibly for a final failing `fetchMeta` entry — in which
case the recording was already written `linked`. -/
theorem anchorBody_trace (env : RemoteEnv) (vodId : Nat) (puuid : String) (force : Bool)
    (t : Int) (matchIds : List String) (st : St) (v : VodRow)
    (hrow : getVOD st.db vodId = some v) :
    ∃ new, (anchorBody env vodId puuid force t matchIds st).1.trace = st.trace ++ new ∧
      ((anchorBody env vodId puuid force t matchIds st).2 = AnchorOut.continueNext →
        cleanEntries new) ∧
      (∀ er, (anchorBody env vodId puuid force t matchIds st).2 = AnchorOut.failed er →
        ∃ pre last, new = pre ++ [last] ∧ cleanEntries pre ∧
          last.failure = some er ∧ last.call.isMeta = false) ∧
      ((anchorBody env vodId puuid force t matchIds st).2 = AnchorOut.decided →
        cleanEntries new ∨
        (∃ pre last er, new = pre ++ [last] ∧ cleanEntries pre ∧
          last.failure = some er ∧ last.call.isMeta = true ∧
          vodStatus (anchorBody env vodId puuid force t matchIds st).1 vodId
            = some (some LinkStatus.linked))) := by
  simp only [anchorBody]
  split
  · exact ⟨[], by simp, fun _ => cleanEntries_nil, fun er h => by simp at h,
      fun h => by simp at h⟩
  · obtain ⟨new1, htr1, hok1, hfail1⟩ :=
      fetchCandidates_trace env puuid (matchIds.take MAX_MATCH_DETAILS) st []
    split
    · rename_i st1 e heq
      rw [heq] at htr1 hfail1
      obtain ⟨pre, m, hnew, hpre⟩ := hfail1 e rfl
      refine ⟨new1, htr1, fun h => by simp at h, fun er h => ?_, fun h => by simp at h⟩
      simp only [Option.some.injEq] at h
      cases h
      exact ⟨pre, _, hnew, hpre, rfl, rfl⟩
    · rename_i st1 cands heq
      rw [heq] at htr1 hok1
      have hclean1 : cleanEntries new1 := hok1 cands rfl
      have hp := (fetchCandidates_preserves env puuid (matchIds.take MAX_MATCH_DETAILS) st []).1
      rw [heq] at hp
      have h1 : getVOD st1.db vodId = some v := by
        rw [getVOD_eq_of_vods st.db st1.db hp, hrow]
      split
      · split
        · exact ⟨new1, htr1, fun _ => hclean1, fun er h => by simp at h,
            fun h => by simp at h⟩
        · exact ⟨new1, htr1, fun h => by simp at h, fun er h => by simp at h,
            fun _ => Or.inl hclean1⟩
      · split
        · rename_i mid hA hB
          obtain ⟨new2, htr2, hlen2, hcall2, hfail2⟩ :=
            fetchMatchMetadataCall_trace env mid
              { st1 with db := (setVodLinkStatus (linkMatch st1.db vodId mid) vodId
                  LinkStatus.linked (scoreCandidates t cands).confidenceMs
                  Option.none Option.none) }
          refine ⟨new1 ++ new2, ?_, fun h => by simp at h, fun er h => by simp at h,
            fun _ => ?_⟩
          · rw [htr2]
            show (st1.trace ++ new2) = st.trace ++ (new1 ++ new2)
            rw [htr1, List.append_assoc]
          · match hn2 : new2 with
            | [] =>
              left
              simpa using hclean1
            | [e2] =>
              rcases he2 : e2.failure with _ | f
              · left
                refine cleanEntries_append hclean1 ?_
                intro e' he'
                rw [List.mem_singleton] at he'
                subst he'
                exact he2
              · right
                refine ⟨new1, e2, f, rfl, hclean1, he2, ?_, ?_⟩
                · have := hcall2 e2 (List.mem_singleton.mpr rfl)
                  rw [this]
                  rfl
                · show (getVOD (fetchMatchMetadataCall env mid _).1.db vodId).map _ = _
                  rw [getVOD_eq_of_vods _ _ (fetchMatchMetadataCall_preserves env mid _),
                    getVOD_setVodLinkStatus, getVOD_linkMatch, h1]
                  rfl
            | e2 :: e3 :: _ =>
              simp at hlen2
        · refine ⟨new1, htr1, fun h => by simp at h, fun er h => by simp at h,
            fun _ => Or.inl hclean1⟩
        · exact ⟨new1, htr1, fun _ => hclean1, fun er h => by simp at h,
            fun h => by simp at h⟩

/-- Equation form of `anchorBody_row`. -/
theorem anchorBody_row_eq (env : RemoteEnv) (vodId : Nat) (puuid : String) (force : Bool)
    (t : Int) (ids : List String) (st2 st3 : St) (aout : AnchorOut) (v : VodRow)
    (heq : anchorBody env vodId puuid force t ids st2 = (st3, aout))
    (hrow : getVOD st2.db vodId = some v) :
    ∃ v', getVOD st3.db vodId = some v' := by
  have h := anchorBody_row env vodId puuid force t ids st2 v hrow
  rw [heq] at h
  exact h

/-- The anchor loop preserves the existence of the recording's row. -/
theorem tryAnchors_row (env : RemoteEnv) (vodId : Nat) (region puuid : String)
    (force : Bool) :
    ∀ (anchors : List Int) (st : St) (v : VodRow), getVOD st.db vodId = some v →
      ∃ v', getVOD (tryAnchors env vodId region puuid force anchors st).1.db vodId
        = some v' := by
  intro anchors
  induction anchors with
  | nil => intro st v h; exact ⟨v, h⟩
  | cons t rest ih =>
    intro st v h
    simp only [tryAnchors]
    rcases halg : alGet st.matchIdsCache
        (cacheKey region puuid (Int.fdiv (searchWindow t).1 1000)
          (Int.fdiv (searchWindow t).2 1000) 20) with _ | ids
    · simp only [halg]
      rcases hlist : env.listIds st.trace.length region puuid
          (Int.fdiv (searchWindow t).1 1000) (Int.fdiv (searchWindow t).2 1000) 20
        with e | ids
      · simp only [hlist]
        exact ⟨v, h⟩
      · simp only [hlist]
        split
        · rename_i st3 heq
          exact anchorBody_row_eq env vodId puuid force t ids _ st3 _ v heq h
        · rename_i st3 e heq
          exact anchorBody_row_eq env vodId puuid force t ids _ st3 _ v heq h
        · rename_i st3 heq
          obtain ⟨v3, hv3⟩ := anchorBody_row_eq env vodId puuid force t ids _ st3 _ v heq h
          exact ih st3 v3 hv3
    · simp only [halg]
      split
      · rename_i st3 heq
        exact anchorBody_row_eq env vodId puuid force t ids _ st3 _ v heq h
      · rename_i st3 e heq
        exact anchorBody_row_eq env vodId puuid force t ids _ st3 _ v heq h
      · rename_i st3 heq
        obtain ⟨v3, hv3⟩ := anchorBody_row_eq env vodId puuid force t ids _ st3 _ v heq h
        exact ih st3 v3 hv3

/-- Equation form of `anchorBody_trace`. -/
theorem anchorBody_trace_eq (env : RemoteEnv) (vodId : Nat) (puuid : String)
    (force : Bool) (t : Int) (ids : List String) (st2 st3 : St) (aout : AnchorOut)
    (v : VodRow) (heq : anchorBody env vodId puuid force t ids st2 = (st3, aout))
    (hrow : getVOD st2.db vodId = some v) :
    ∃ new, st3.trace = st2.trace ++ new ∧
      (aout = AnchorOut.continueNext → cleanEntries new) ∧
      (∀ er, aout = AnchorOut.failed er →
        ∃ pre last, new = pre ++ [last] ∧ cleanEntries pre ∧
          last.failure = some er ∧ last.call.isMeta = false) ∧
      (aout = AnchorOut.decided →
        cleanEntries new ∨
        (∃ pre last er, new = pre ++ [last] ∧ cleanEntries pre ∧
          last.failure = some er ∧ last.call.isMeta = true ∧
          vodStatus st3 vodId = some (some LinkStatus.linked))) := by
  have h := anchorBody_trace env vodId puuid force t ids st2 v hrow
  rw [heq] at h
  exact h

/-- The trace entry logged for an id-list query at anchor `t`. -/
def listIdsEntry (region puuid : String) (t : Int) (failure : Option String) : TraceEntry :=
  { call := RCall.listIds region puuid (Int.fdiv (searchWindow t).1 1000)
      (Int.fdiv (searchWindow t).2 1000) 20,
    failure := failure }

/-- The anchor loop appends one trace entry per remote call: exhausting all
anchors adds only clean entries; a failure ends the new entries with the
failing non-meta call; a decision is clean except possibly for a final
failing `fetchMeta`, in which case the recording is `linked`. -/
theorem tryAnchors_trace (env : RemoteEnv) (vodId : Nat) (region puuid : String)
    (force : Bool) :
    ∀ (anchors : List Int) (st : St) (v : VodRow), getVOD st.db vodId = some v →
      ∃ new,
        (tryAnchors env vodId region puuid force anchors st).1.trace
          = st.trace ++ new ∧
        ((tryAnchors env vodId region puuid force anchors st).2 = TryOut.exhausted →
          cleanEntries new) ∧
        (∀ er, (tryAnchors env vodId region puuid force anchors st).2 = TryOut.failed er →
          ∃ pre last, new = pre ++ [last] ∧ cleanEntries pre ∧
            last.failure = some er ∧ last.call.isMeta = false) ∧
        ((tryAnchors env vodId region puuid force anchors st).2 = TryOut.decided →
          cleanEntries new ∨
          (∃ pre last er, new = pre ++ [last] ∧ cleanEntries pre ∧
            last.failure = some er ∧ last.call.isMeta = true ∧
            vodStatus (tryAnchors env vodId region puuid force anchors st).1 vodId
              = some (some LinkStatus.linked))) := by
  intro anchors
  induction anchors with
  | nil =>
    intro st v h
    exact ⟨[], by simp [tryAnchors], fun _ => cleanEntries_nil,
      fun er hq => by simp [tryAnchors] at hq, fun hq => by simp [tryAnchors] at hq⟩
  | cons t rest ih =>
    intro st v h
    simp only [tryAnchors]
    rcases halg : alGet st.matchIdsCache
        (cacheKey region puuid (Int.fdiv (searchWindow t).1 1000)
          (Int.fdiv (searchWindow t).2 1000) 20) with _ | ids
    · simp only [halg]
      rcases hlist : env.listIds st.trace.length region puuid
          (Int.fdiv (searchWindow t).1 1000) (Int.fdiv (searchWindow t).2 1000) 20
        with e | ids
      · simp only [hlist]
        refine ⟨[listIdsEntry region puuid t (some e)], rfl,
          fun hq => by simp at hq, fun er hq => ?_, fun hq => by simp at hq⟩
        simp only [Option.some.injEq] at hq
        cases hq
        exact ⟨[], listIdsEntry region puuid t (some e), rfl, cleanEntries_nil, rfl, rfl⟩
      · simp only [hlist]
        split
        · rename_i st3 heq
          obtain ⟨new, htr, _, _, hdecA⟩ :=
            anchorBody_trace_eq env vodId puuid force t ids _ st3 _ v heq h
          refine ⟨listIdsEntry region puuid t Option.none :: new,
            ?_, fun hq => by simp at hq, fun er hq => by simp at hq, fun _ => ?_⟩
          · rw [htr]
            show (st.trace ++ [listIdsEntry region puuid t Option.none]) ++ new = _
            rw [List.append_assoc]
            rfl
          · rcases hdecA rfl with hclean | ⟨pre, last, er, hnew, hpre, hfl, hmeta, hstat⟩
            · left
              intro e' he'
              rcases List.mem_cons.mp he' with he' | he'
              · subst he'; rfl
              · exact hclean e' he'
            · right
              refine ⟨listIdsEntry region puuid t Option.none :: pre, last, er,
                by rw [hnew]; rfl, ?_, hfl, hmeta, hstat⟩
              intro e' he'
              rcases List.mem_cons.mp he' with he' | he'
              · subst he'; rfl
              · exact hpre e' he'
        · rename_i st3 e heq
          obtain ⟨new, htr, _, hfailA, _⟩ :=
            anchorBody_trace_eq env vodId puuid force t ids _ st3 _ v heq h
          refine ⟨listIdsEntry region puuid t Option.none :: new,
            ?_, fun hq => by simp at hq, fun er hq => ?_, fun hq => by simp at hq⟩
          · rw [htr]
            show (st.trace ++ [listIdsEntry region puuid t Option.none]) ++ new = _
            rw [List.append_assoc]
            rfl
          · simp only [Option.some.injEq] at hq
            cases hq
            obtain ⟨pre, last, hnew, hpre, hfl, hmeta⟩ := hfailA e rfl
            refine ⟨listIdsEntry region puuid t Option.none :: pre, last,
              by rw [hnew]; rfl, ?_, hfl, hmeta⟩
            intro e' he'
            rcases List.mem_cons.mp he' with he' | he'
            · subst he'; rfl
            · exact hpre e' he'
        · rename_i st3 heq
          obtain ⟨new1, htrA, hcontA, _, _⟩ :=
            anchorBody_trace_eq env vodId puuid force t ids _ st3 _ v heq h
          have hclean1 : cleanEntries new1 := hcontA rfl
          obtain ⟨v3, hv3⟩ := anchorBody_row_eq env vodId puuid force t ids _ st3 _ v heq h
          obtain ⟨new2, htr2, hexh2, hfail2, hdec2⟩ := ih st3 v3 hv3
          have hlEntry : cleanEntries (listIdsEntry region puuid t Option.none :: new1) := by
            intro e' he'
            rcases List.mem_cons.mp he' with he' | he'
            · subst he'; rfl
            · exact hclean1 e' he'
          refine ⟨(listIdsEntry region puuid t Option.none :: new1) ++ new2,
            ?_, fun hq => ?_, fun er hq => ?_, fun hq => ?_⟩
          · rw [htr2, htrA]
            show ((st.trace ++ [listIdsEntry region puuid t Option.none]) ++ new1) ++ new2 = _
            simp
          · exact cleanEntries_append hlEntry (hexh2 hq)
          · obtain ⟨pre, last, hnew, hpre, hfl, hmeta⟩ := hfail2 er hq
            exact ⟨(listIdsEntry region puuid t Option.none :: new1) ++ pre, last,
              by rw [hnew, List.append_assoc], cleanEntries_append hlEntry hpre,
              hfl, hmeta⟩
          · rcases hdec2 hq with hclean | ⟨pre, last, er, hnew, hpre, hfl, hmeta, hstat⟩
            · exact Or.inl (cleanEntries_append hlEntry hclean)
            · exact Or.inr ⟨(listIdsEntry region puuid t Option.none :: new1) ++ pre,
                last, er, by rw [hnew, List.append_assoc],
                cleanEntries_append hlEntry hpre, hfl, hmeta, hstat⟩
    · simp only [halg]
      split
      · rename_i st3 heq
        obtain ⟨new, htr, _, _, hdecA⟩ :=
          anchorBody_trace_eq env vodId puuid force t ids _ st3 _ v heq h
        exact ⟨new, htr, fun hq => by simp at hq, fun er hq => by simp at hq,
          fun _ => hdecA rfl⟩
      · rename_i st3 e heq
        obtain ⟨new, htr, _, hfailA, _⟩ :=
          anchorBody_trace_eq env vodId puuid force t ids _ st3 _ v heq h
        refine ⟨new, htr, fun hq => by simp at hq, fun er hq => ?_,
          fun hq => by simp at hq⟩
        simp only [Option.some.injEq] at hq
        cases hq
        exact hfailA e rfl
      · rename_i st3 heq
        obtain ⟨new1, htrA, hcontA, _, _⟩ :=
          anchorBody_trace_eq env vodId puuid force t ids _ st3 _ v heq h
        have hclean1 : cleanEntries new1 := hcontA rfl
        obtain ⟨v3, hv3⟩ := anchorBody_row_eq env vodId puuid force t ids _ st3 _ v heq h
        obtain ⟨new2, htr2, hexh2, hfail2, hdec2⟩ := ih st3 v3 hv3
        refine ⟨new1 ++ new2, ?_, fun hq => cleanEntries_append hclean1 (hexh2 hq),
          fun er hq => ?_, fun hq => ?_⟩
        · rw [htr2, htrA, List.append_assoc]
        · obtain ⟨pre, last, hnew, hpre, hfl, hmeta⟩ := hfail2 er hq
          exact ⟨new1 ++ pre, last, by rw [hnew, List.append_assoc],
            cleanEntries_append hclean1 hpre, hfl, hmeta⟩
        · rcases hdec2 hq with hclean | ⟨pre, last, er, hnew, hpre, hfl, hmeta, hstat⟩
          · exact Or.inl (cleanEntries_append hclean1 hclean)
          · exact Or.inr ⟨new1 ++ pre, last, er, by rw [hnew, List.append_assoc],
              cleanEntries_append hclean1 hpre, hfl, hmeta, hstat⟩

theorem cleanEntries_dropLast {l : List TraceEntry} (h : cleanEntries l) :
    cleanEntries l.dropLast :=
  fun e he => h e ((l.dropLast_sublist).subset he)

theorem mem_of_getLast?_eq {α : Type} {l : List α} {a : α}
    (h : l.getLast? = some a) : a ∈ l := by
  induction l with
  | nil => simp at h
  | cons x xs ih =>
    cases hxs : xs with
    | nil =>
      subst hxs
      simp only [List.getLast?_singleton, Option.some.injEq] at h
      simp [h]
    | cons y ys =>
      subst hxs
      rw [List.getLast?_cons_cons] at h
      exact List.mem_cons_of_mem _ (ih h)

/-- After one full attempt tail (`autoLinkAttempt`), all new trace entries
except possibly the last are clean; if the last new entry is a failing
non-meta call, the recording was written `error` with that message; if it
is a failing `fetchMeta`, the recording stays `linked`. -/
theorem autoLinkAttempt_report (env : RemoteEnv) (vodId : Nat) (region puuid : String)
    (force : Bool) (anchors : List Int) (st : St) (v : VodRow)
    (hrow : getVOD st.db vodId = some v) :
    ∃ new, (autoLinkAttempt env vodId region puuid force anchors st).trace
        = st.trace ++ new ∧
      cleanEntries new.dropLast ∧
      (∀ last er, new.getLast? = some last → last.failure = some er →
        last.call.isMeta = false →
        vodStatus (autoLinkAttempt env vodId region puuid force anchors st) vodId
          = some (some LinkStatus.error) ∧
        vodError (autoLinkAttempt env vodId region puuid force anchors st) vodId
          = some (some er)) ∧
      (∀ last er, new.getLast? = some last → last.failure = some er →
        last.call.isMeta = true →
        vodStatus (autoLinkAttempt env vodId region puuid force anchors st) vodId
          = some (some LinkStatus.linked)) := by
  have htr := tryAnchors_trace env vodId region puuid force anchors st v hrow
  have hro := tryAnchors_row env vodId region puuid force anchors st v hrow
  unfold autoLinkAttempt
  split
  · rename_i st' heq
    rw [heq] at htr hro
    obtain ⟨new, htrace, _, _, hdec⟩ := htr
    rcases hdec rfl with hclean | ⟨pre, last0, er0, hnew, hpre, hfl0, hmeta0, hstat0⟩
    · refine ⟨new, htrace, cleanEntries_dropLast hclean, ?_, ?_⟩
      · intro last er hlast hfl _
        have := hclean last (mem_of_getLast?_eq hlast)
        rw [this] at hfl
        cases hfl
      · intro last er hlast hfl _
        have := hclean last (mem_of_getLast?_eq hlast)
        rw [this] at hfl
        cases hfl
    · refine ⟨new, htrace, ?_, ?_, ?_⟩
      · rw [hnew, List.dropLast_concat]
        exact hpre
      · intro last er hlast hfl hm
        rw [hnew, List.getLast?_concat] at hlast
        simp only [Option.some.injEq] at hlast
        subst hlast
        rw [hmeta0] at hm
        cases hm
      · intro last er hlast _ _
        exact hstat0
  · rename_i st' heq
    rw [heq] at htr hro
    obtain ⟨new, htrace, hexh, _, _⟩ := htr
    obtain ⟨v', hv'⟩ := hro
    have hclean := hexh rfl
    refine ⟨new, htrace, cleanEntries_dropLast hclean, ?_, ?_⟩
    · intro last er hlast hfl _
      have := hclean last (mem_of_getLast?_eq hlast)
      rw [this] at hfl
      cases hfl
    · intro last er hlast hfl _
      have := hclean last (mem_of_getLast?_eq hlast)
      rw [this] at hfl
      cases hfl
  · rename_i st' e heq
    rw [heq] at htr hro
    obtain ⟨new, htrace, _, hfail, _⟩ := htr
    obtain ⟨v', hv'⟩ := hro
    obtain ⟨pre, last0, hnew, hpre, hfl0, hmeta0⟩ := hfail e rfl
    refine ⟨new, htrace, ?_, ?_, ?_⟩
    · rw [hnew, List.dropLast_concat]
      exact hpre
    · intro last er hlast hfl hm
      rw [hnew, List.getLast?_concat] at hlast
      simp only [Option.some.injEq] at hlast
      subst hlast
      rw [hfl0] at hfl
      simp only [Option.some.injEq] at hfl
      subst hfl
      constructor
      · show (getVOD (setVodLinkStatus st'.db vodId LinkStatus.error
            Option.none Option.none (some e)) vodId).map _ = _
        rw [getVOD_setVodLinkStatus, hv']
        rfl
      · show (getVOD (setVodLinkStatus st'.db vodId LinkStatus.error
            Option.none Option.none (some e)) vodId).map _ = _
        rw [getVOD_setVodLinkStatus, hv']
        rfl
    · intro last er hlast hfl hm
      rw [hnew, List.getLast?_concat] at hlast
      simp only [Option.some.injEq] at hlast
      subst hlast
      rw [hmeta0] at hm
      cases hm

theorem c4_vacuous (r : St) (vodId : Nat) (h : r.trace = []) :
    cleanEntries r.trace.dropLast ∧
    (∀ last er, r.trace.getLast? = some last → last.failure = some er →
      last.call.isMeta = false →
      vodStatus r vodId = some (some LinkStatus.error) ∧
      vodError r vodId = some (some er)) ∧
    (∀ last er, r.trace.getLast? = some last → last.failure = some er →
      last.call.isMeta = true →
      vodStatus r vodId = some (some LinkStatus.linked)) := by
  refine ⟨?_, ?_, ?_⟩
  · rw [h]
    intro e he
    simp at he
  · intro last er hlast _ _
    rw [h] at hlast
    simp at hlast
  · intro last er hlast _ _
    rw [h] at hlast
    simp at hlast

theorem c4_attempt (env : RemoteEnv) (vodId : Nat) (region puuid : String)
    (force : Bool) (anchors : List Int) (st : St) (v : VodRow)
    (hrow : getVOD st.db vodId = some v) (htr0 : st.trace = []) :
    cleanEntries (autoLinkAttempt env vodId region puuid force anchors st).trace.dropLast ∧
    (∀ last er,
      (autoLinkAttempt env vodId region puuid force anchors st).trace.getLast? = some last →
      last.failure = some er → last.call.isMeta = false →
      vodStatus (autoLinkAttempt env vodId region puuid force anchors st) vodId
        = some (some LinkStatus.error) ∧
      vodError (autoLinkAttempt env vodId region puuid force anchors st) vodId
        = some (some er)) ∧
    (∀ last er,
      (autoLinkAttempt env vodId region puuid force anchors st).trace.getLast? = some last →
      last.failure = some er → last.call.isMeta = true →
      vodStatus (autoLinkAttempt env vodId region puuid force anchors st) vodId
        = some (some LinkStatus.linked)) := by
  obtain ⟨new, htrace, hclean, hnm, hm⟩ :=
    autoLinkAttempt_report env vodId region puuid force anchors st v hrow
  rw [htr0, List.nil_append] at htrace
  rw [htrace]
  exact ⟨hclean, hnm, hm⟩

/-- C4 (amended): during a `linkOne` attempt starting with an empty
remote-call trace, every remote call except possibly the last succeeds
(i.e. the first failure is final — no later anchors are tried after it);
if the attempt's last call is a failing non-metadata call, the recording is
left `error` with that failure message; but if it is the failing post-link
metadata fetch, the failure is absorbed and the recording stays `linked`.
The sweep body always attempts every unlinked recording regardless of
failures. -/
theorem autoLinkVod_error_handling :
    (∀ (env : RemoteEnv) (st : St) (vodId : Nat) (force : Bool) (vod : VodRow),
      getVOD st.db vodId = some vod → st.trace = [] →
      cleanEntries (autoLinkVod env st vodId force).trace.dropLast ∧
      (∀ last er,
        (autoLinkVod env st vodId force).trace.getLast? = some last →
        last.failure = some er → last.call.isMeta = false →
        vodStatus (autoLinkVod env st vodId force) vodId
          = some (some LinkStatus.error) ∧
        vodError (autoLinkVod env st vodId force) vodId = some (some er)) ∧
      (∀ last er,
        (autoLinkVod env st vodId force).trace.getLast? = some last →
        last.failure = some er → last.call.isMeta = true →
        vodStatus (autoLinkVod env st vodId force) vodId
          = some (some LinkStatus.linked))) ∧
    (∀ (env : RemoteEnv) (st : St),
      (autoLinkAllUnlinked env st).2 = (listUnlinkedVods st.db).map (fun v => v.id)) := by
  constructor
  · intro env st vodId force vod hv htr
    unfold autoLinkVod
    rw [hv]
    by_cases hg1 : (vod.matchLinkStatus == some LinkStatus.linking && !force) = true
    · simp only [hg1, if_true]
      exact c4_vacuous st vodId htr
    · simp only [if_neg hg1]
      by_cases hg2 : (vod.matchId.isSome && !force) = true
      · simp only [hg2, if_true]
        exact c4_vacuous st vodId htr
      · simp only [if_neg hg2]
        by_cases hm : (vod.matchId.isSome && force) = true
        · simp only [hm, if_true]
          by_cases hc : (strFalsy (unlinkMatch st.db vodId).settings.riot_api_key
              || strFalsy (unlinkMatch st.db vodId).settings.riot_puuid) = true
          · simp only [hc, if_true]
            exact c4_vacuous _ vodId htr
          · rw [if_neg hc]
            refine c4_attempt env vodId _ _ force _ _
              { vod with matchId := Option.none,
                         matchLinkStatus := some LinkStatus.linking,
                         matchLinkConfidenceMs := Option.none,
                         matchLinkCandidates := Option.none,
                         matchLinkError := Option.none } ?_ ?_
            · show getVOD (setVodLinkStatus (unlinkMatch st.db vodId) vodId
                  LinkStatus.linking Option.none Option.none Option.none) vodId = some _
              rw [getVOD_setVodLinkStatus, getVOD_unlinkMatch, hv]
              rfl
            · exact htr
        · simp only [if_neg hm]
          by_cases hc : (strFalsy st.db.settings.riot_api_key
              || strFalsy st.db.settings.riot_puuid) = true
          · simp only [hc, if_true]
            exact c4_vacuous _ vodId htr
          · rw [if_neg hc]
            refine c4_attempt env vodId _ _ force _ _
              { vod with matchLinkStatus := some LinkStatus.linking,
                         matchLinkConfidenceMs := Option.none,
                         matchLinkCandidates := Option.none,
                         matchLinkError := Option.none } ?_ ?_
            · show getVOD (setVodLinkStatus st.db vodId
                  LinkStatus.linking Option.none Option.none Option.none) vodId = some _
              rw [getVOD_setVodLinkStatus, hv]
              rfl
            · exact htr
  · intro env st
    rfl

/-- A remote service that lists one match, serves its detail payload
(without participants, so no opportunistic metadata caching happens), and
fails every later call. -/
def envC4 : RemoteEnv :=
  { listIds := fun _ _ _ _ _ _ => Except.ok ["m1"],
    fetchMatch := fun n _ =>
      if n == 1 then
        Except.ok { game_datetime := some 1000, game_length := some 0,
                    participants := [] }
      else Except.error "boom" }

/-- A store with one fresh unlinked recording (created at t = 0) and full
credentials. -/
def stC4 : St :=
  { stEmpty with db :=
    { dbEmpty with
      vods := [mkRow 1 (some 0) Option.none],
      settings := { riot_api_key := some "k", riot_puuid := some "p",
                    riot_region := some "NA" } } }

/-- C4 counterexample: a concrete `linkOne` attempt in which a remote call
(the post-link metadata fetch) fails with "boom", yet the recording is NOT
set to `error` with that message — it stays `linked` with no stored error,
because `autoLinkVod` absorbs metadata-fetch failures with only a console
warning.  This refutes "if ANY remote call made during a linkOne attempt
fails, ... the recording's state is set to error with the failure
message". -/
theorem autoLinkVod_error_handling_counterexample :
    (autoLinkVod envC4 stC4 1 false).trace.getLast?
      = some { call := RCall.fetchMeta "m1", failure := some "boom" } ∧
    vodStatus (autoLinkVod envC4 stC4 1 false) 1 = some (some LinkStatus.linked) ∧
    vodError (autoLinkVod envC4 stC4 1 false) 1 = some Option.none := by
  refine ⟨?_, ?_, ?_⟩ <;> rfl

theorem autoLinkVod_error_handling_witness :
    getVOD stC4.db 1 = some (mkRow 1 (some 0) Option.none) ∧
    stC4.trace = [] ∧
    (cleanEntries (autoLinkVod envC4 stC4 1 false).trace.dropLast ∧
     (∀ last er,
       (autoLinkVod envC4 stC4 1 false).trace.getLast? = some last →
       last.failure = some er → last.call.isMeta = false →
       vodStatus (autoLinkVod envC4 stC4 1 false) 1
         = some (some LinkStatus.error) ∧
       vodError (autoLinkVod envC4 stC4 1 false) 1 = some (some er)) ∧
     (∀ last er,
       (autoLinkVod envC4 stC4 1 false).trace.getLast? = some last →
       last.failure = some er → last.call.isMeta = true →
       vodStatus (autoLinkVod envC4 stC4 1 false) 1
         = some (some LinkStatus.linked))) :=
  ⟨by decide, rfl,
   autoLinkVod_error_handling.1 envC4 stC4 1 false
     (mkRow 1 (some 0) Option.none) (by decide) rfl⟩

/-! ### The sweep scheduler (`autoLinkAllUnlinked` / `scheduleAutoLink`) -/

/-- Scheduler events: a direct `autoLinkAllUnlinked()` call, the completion
of the running pass body (its `finally`), and the `scheduleAutoLink` timer
firing (which calls `autoLinkAllUnlinked()` again). -/
inductive SweepEv where
  | trigger
  | finish
  | timerFire
deriving Repr, DecidableEq

/-- Scheduler state: the `autoLinkInFlight` / `autoLinkQueued` flags, the
`autoLinkTimer`, plus two ghost counters — passes currently executing and
follow-up passes scheduled from the `finally` block. -/
structure SweepSt where
  inFlight : Bool
  queued : Bool
  timerPending : Bool
  running : Nat
  followups : Nat
deriving Repr, DecidableEq

def sweepInit : SweepSt :=
  { inFlight := false, queued := false, timerPending := false, running := 0,
    followups := 0 }

/-- The synchronous head of `autoLinkAllUnlinked`: if a pass is in flight,
only set the queued flag and return; otherwise mark in flight and start a
pass (incrementing the ghost `running` counter). -/
def sweepEnter (s : SweepSt) : SweepSt :=
  if s.inFlight = true then { s with queued := true }
  else { s with inFlight := true, running := s.running + 1 }

/-- One scheduler event.  `finish` is the `finally` of an executing pass:
clear `inFlight`, decrement the ghost counter, and if `queued` was set,
clear it and arm the 500 ms follow-up timer (counted in `followups`).
`timerFire` clears the timer and calls `autoLinkAllUnlinked()`. -/
def sweepStep : SweepSt → SweepEv → Option SweepSt
  | s, SweepEv.trigger => some (sweepEnter s)
  | s, SweepEv.finish =>
    if s.running = 0 then Option.none
    else
      let s1 : SweepSt := { s with inFlight := false, running := s.running - 1 }
      some (if s1.queued = true then
              { s1 with queued := false, timerPending := true,
                        followups := s1.followups + 1 }
            else s1)
  | s, SweepEv.timerFire =>
    if s.timerPending = true then
      some (sweepEnter { s with timerPending := false })
    else Option.none

/-- States reachable from the idle scheduler. -/
inductive SweepReach : SweepSt → Prop where
  | base : SweepReach sweepInit
  | step (s : SweepSt) (e : SweepEv) (s' : SweepSt) :
      SweepReach s → sweepStep s e = some s' → SweepReach s'

/-- The single-flight invariant: exactly one pass runs while `inFlight`. -/
def SweepInv (s : SweepSt) : Prop :=
  s.running = (if s.inFlight = true then 1 else 0)

theorem sweepInv_of_reach {s : SweepSt} (h : SweepReach s) : SweepInv s := by
  induction h with
  | base => rfl
  | step s e s' _ hstep ih =>
    cases e with
    | trigger =>
      simp only [sweepStep, Option.some.injEq] at hstep
      subst hstep
      unfold sweepEnter
      unfold SweepInv at ih ⊢
      by_cases hf : s.inFlight = true <;> simp [hf] at ih ⊢ <;> omega
    | finish =>
      simp only [sweepStep] at hstep
      by_cases hr : s.running = 0
      · rw [if_pos hr] at hstep
        cases hstep
      · rw [if_neg hr] at hstep
        simp only [Option.some.injEq] at hstep
        subst hstep
        unfold SweepInv at ih ⊢
        by_cases hq : s.queued = true <;> by_cases hf : s.inFlight = true <;>
          simp [hq, hf] at ih ⊢ <;> omega
    | timerFire =>
      simp only [sweepStep] at hstep
      by_cases ht : s.timerPending = true
      · rw [if_pos ht] at hstep
        simp only [Option.some.injEq] at hstep
        subst hstep
        unfold sweepEnter
        unfold SweepInv at ih ⊢
        by_cases hf : s.inFlight = true <;> simp [hf] at ih ⊢ <;> omega
      · rw [if_neg ht] at hstep
        cases hstep

/-- `n` direct trigger calls in a row. -/
def triggers : Nat → SweepSt → SweepSt
  | 0, s => s
  | n + 1, s => triggers n (sweepEnter s)

theorem triggers_inFlight (s : SweepSt) (h : s.inFlight = true) :
    ∀ n, triggers n s = if n = 0 then s else { s with queued := true } := by
  intro n
  induction n generalizing s with
  | zero => rfl
  | succ m ih =>
    show triggers m (sweepEnter s) = _
    have henter : sweepEnter s = { s with queued := true } := by
      unfold sweepEnter
      rw [if_pos h]
    rw [henter, ih { s with queued := true } h]
    by_cases hm : m = 0
    · simp [hm]
    · simp [hm]

/-- C7: the sweep never runs two overlapping passes (at most one pass
executes in any reachable scheduler state); a trigger arriving while a pass
is in flight only sets the queued flag, and any number `n ≥ 1` of such
triggers during one pass yields exactly ONE follow-up pass, scheduled by
the finishing pass's `finally` with the queued flag cleared (`n = 0`
triggers yield none); and a pass's outcome is independent of the incoming
sweep-scoped caches — they are created fresh at each pass start. -/
theorem autoLinkAllUnlinked_single_flight :
    (∀ s : SweepSt, SweepReach s → s.running ≤ 1) ∧
    (∀ (s : SweepSt) (n : Nat), SweepInv s → s.inFlight = true → s.queued = false →
      (0 < n → triggers n s = { s with queued := true }) ∧
      ∃ s', sweepStep (triggers n s) SweepEv.finish = some s' ∧
        s'.inFlight = false ∧ s'.queued = false ∧ s'.running = 0 ∧
        s'.followups = s.followups + (if n = 0 then 0 else 1) ∧
        s'.timerPending = (if n = 0 then s.timerPending else true)) ∧
    (∀ (env : RemoteEnv) (st : St),
      autoLinkAllUnlinked env st
        = autoLinkAllUnlinked env { st with matchIdsCache := [], matchTimeCache := [] }) := by
  refine ⟨?_, ?_, fun env st => rfl⟩
  · intro s hreach
    have hinv := sweepInv_of_reach hreach
    unfold SweepInv at hinv
    by_cases hf : s.inFlight = true <;> simp [hf] at hinv <;> omega
  · intro s n hinv hf hq
    have htr := triggers_inFlight s hf n
    have hrun : s.running = 1 := by
      unfold SweepInv at hinv
      rw [hf] at hinv
      simpa using hinv
    constructor
    · intro hn
      rw [htr, if_neg (Nat.pos_iff_ne_zero.mp hn)]
    · by_cases hn : n = 0
      · subst hn
        rw [htr, if_pos rfl]
        refine ⟨{ s with inFlight := false, running := 0 }, ?_, rfl, hq, rfl, rfl, rfl⟩
        simp only [sweepStep, hrun]
        rw [if_neg (by omega : ¬ (1 : Nat) = 0)]
        simp only [Option.some.injEq]
        rw [hq]
        simp [hrun]
      · rw [htr, if_neg hn]
        refine ⟨{ s with inFlight := false, running := 0, queued := false, timerPending := true, followups := s.followups + 1 }, ?_, rfl, rfl, rfl, ?_, ?_⟩
        · simp only [sweepStep, hrun]
          rw [if_neg (by omega : ¬ (1 : Nat) = 0)]
          simp [hrun]
        · simp [hn]
        · simp [hn]

/-- A scheduler state with one pass in flight, reachable by one trigger. -/
def sweepWit : SweepSt :=
  { inFlight := true, queued := false, timerPending := false, running := 1,
    followups := 0 }

theorem autoLinkAllUnlinked_single_flight_witness :
    SweepReach sweepWit ∧ SweepInv sweepWit ∧
    sweepWit.running ≤ 1 ∧
    ((0 < 2 → triggers 2 sweepWit = { sweepWit with queued := true }) ∧
     ∃ s', sweepStep (triggers 2 sweepWit) SweepEv.finish = some s' ∧
        s'.inFlight = false ∧ s'.queued = false ∧ s'.running = 0 ∧
        s'.followups = sweepWit.followups + (if 2 = 0 then 0 else 1) ∧
        s'.timerPending = (if 2 = 0 then sweepWit.timerPending else true)) :=
  have hreach : SweepReach sweepWit :=
    SweepReach.step sweepInit SweepEv.trigger sweepWit SweepReach.base rfl
  ⟨hreach, rfl, autoLinkAllUnlinked_single_flight.1 sweepWit hreach,
   autoLinkAllUnlinked_single_flight.2.1 sweepWit 2 rfl rfl rfl⟩

/-! ### The VOD watcher (`rescanAndMaybeQueue` / `start` / `stop`) -/

/-- Watcher events: a successful `start(folder)`, `stop()`, a filesystem or
poll tick calling `scheduleRescan`, the debounce timer firing (which calls
`rescanAndMaybeQueue`), a direct `rescanAndMaybeQueue()` call, and the
completion of an executing `onRescan` (its `finally`). -/
inductive WatchEv where
  | start
  | stop
  | schedule
  | timerFire
  | rescan
  | finish
deriving Repr, DecidableEq

/-- Watcher state: `watchPath` collapsed to a Bool, the two timers, the
`rescanInFlight` / `rescanQueued` flags, plus two ghost counters — the
number of `onRescan` calls currently executing and the follow-up rescans
scheduled from the `finally` block.  `stop()` resets flags and timers but
does NOT cancel an already-executing `onRescan`, so `running` survives
lifecycle events. -/
structure WatchSt where
  watching : Bool
  rescanTimer : Bool
  pollTimer : Bool
  inFlight : Bool
  queued : Bool
  running : Nat
  followups : Nat
deriving Repr, DecidableEq

def watchIdle : WatchSt :=
  { watching := false, rescanTimer := false, pollTimer := false,
    inFlight := false, queued := false, running := 0, followups := 0 }

/-- The synchronous head of `rescanAndMaybeQueue`: return if not watching;
if a rescan is in flight, only set the queued flag; otherwise mark in
flight and start `onRescan` (incrementing the ghost `running` counter). -/
def rescanBody (s : WatchSt) : WatchSt :=
  if s.watching = false then s
  else if s.inFlight = true then { s with queued := true }
  else { s with inFlight := true, running := s.running + 1 }

/-- One watcher event.  `start` performs `stop()` then arms the poll timer
and the initial `scheduleRescan(0)`; `finish` is the `finally` of an
executing `onRescan`: clear `inFlight`, decrement the ghost counter, and if
`queued` was set, clear it and (when still watching) arm the 250 ms
follow-up timer (counted in `followups`). -/
def watchStep : WatchSt → WatchEv → Option WatchSt
  | s, WatchEv.start =>
    some { watching := true, rescanTimer := true, pollTimer := true,
           inFlight := false, queued := false, running := s.running,
           followups := s.followups }
  | s, WatchEv.stop =>
    let s' : WatchSt := { s with watching := false, rescanTimer := false, pollTimer := false, inFlight := false, queued := false }
    some s'
  | s, WatchEv.schedule =>
    some (if s.watching = true then { s with rescanTimer := true } else s)
  | s, WatchEv.timerFire =>
    if s.rescanTimer = true then some (rescanBody { s with rescanTimer := false })
    else Option.none
  | s, WatchEv.rescan => some (rescanBody s)
  | s, WatchEv.finish =>
    if s.running = 0 then Option.none
    else
      let s1 : WatchSt := { s with inFlight := false, running := s.running - 1 }
      let s2 : WatchSt := { s1 with queued := false, rescanTimer := true, followups := s1.followups + 1 }
      some (if s1.queued = true then
              (if s1.watching = true then s2 else { s1 with queued := false })
            else s1)

/-- Run a list of watcher events from the idle state. -/
def watchRun (l : List WatchEv) : Option WatchSt :=
  l.foldl (fun acc e => acc.bind (fun s => watchStep s e)) (some watchIdle)

/-- The single-flight invariant within one lifecycle episode: exactly one
`onRescan` executes while `inFlight`. -/
def WatchInv (s : WatchSt) : Prop :=
  s.running = (if s.inFlight = true then 1 else 0)

/-- `n` direct `rescanAndMaybeQueue()` calls in a row. -/
def rescans : Nat → WatchSt → WatchSt
  | 0, s => s
  | n + 1, s => rescans n (rescanBody s)

theorem rescans_inFlight (s : WatchSt) (hw : s.watching = true)
    (h : s.inFlight = true) :
    ∀ n, rescans n s = if n = 0 then s else { s with queued := true } := by
  intro n
  induction n generalizing s with
  | zero => rfl
  | succ m ih =>
    show rescans m (rescanBody s) = _
    have hbody : rescanBody s = { s with queued := true } := by
      unfold rescanBody
      rw [if_neg (by rw [hw]; exact fun h => nomatch h), if_pos h]
    rw [hbody, ih { s with queued := true } hw h]
    by_cases hm : m = 0
    · simp [hm]
    · simp [hm]

/-- C8 (amended): WITHIN one lifecycle episode (no `start`/`stop` events)
rescans never overlap — the single-flight invariant (at most one executing
`onRescan`) holds initially and is preserved by every non-lifecycle event;
a trigger arriving while a rescan is in flight only sets the queued flag;
and a burst of `n ≥ 1` triggers during one rescan produces exactly one
250 ms follow-up with the flag cleared.  The guarantee does NOT extend
across `stop()`/`start()`, since `stop()` resets `rescanInFlight` without
cancelling an already-running rescan. -/
theorem rescanAndMaybeQueue_no_overlap :
    (∀ s : WatchSt, WatchInv s → s.running ≤ 1) ∧
    (∀ (s s' : WatchSt) (e : WatchEv), WatchInv s → e ≠ WatchEv.start →
      e ≠ WatchEv.stop → watchStep s e = some s' → WatchInv s') ∧
    (∀ s : WatchSt, s.watching = true → s.inFlight = true →
      watchStep s WatchEv.rescan = some { s with queued := true }) ∧
    (∀ (s : WatchSt) (n : Nat), WatchInv s → s.watching = true → s.inFlight = true →
      s.queued = false →
      ∃ s', watchStep (rescans n s) WatchEv.finish = some s' ∧
        s'.inFlight = false ∧ s'.queued = false ∧ s'.running = 0 ∧
        s'.followups = s.followups + (if n = 0 then 0 else 1) ∧
        s'.rescanTimer = (if n = 0 then s.rescanTimer else true)) := by
  refine ⟨?_, ?_, ?_, ?_⟩
  · intro s hinv
    unfold WatchInv at hinv
    by_cases hf : s.inFlight = true <;> simp [hf] at hinv <;> omega
  · intro s s' e hinv hns hnt hstep
    cases e with
    | start => exact absurd rfl hns
    | stop => exact absurd rfl hnt
    | schedule =>
      simp only [watchStep, Option.some.injEq] at hstep
      subst hstep
      by_cases hw : s.watching = true <;> by_cases hf : s.inFlight = true <;>
        simp [WatchInv, hw, hf] at hinv ⊢ <;> omega
    | timerFire =>
      simp only [watchStep] at hstep
      by_cases ht : s.rescanTimer = true
      · rw [if_pos ht] at hstep
        simp only [Option.some.injEq] at hstep
        subst hstep
        by_cases hw : s.watching = false <;> by_cases hf : s.inFlight = true <;>
          simp [WatchInv, rescanBody, hw, hf] at hinv ⊢ <;> omega
      · rw [if_neg ht] at hstep
        cases hstep
    | rescan =>
      simp only [watchStep, Option.some.injEq] at hstep
      subst hstep
      by_cases hw : s.watching = false <;> by_cases hf : s.inFlight = true <;>
        simp [WatchInv, rescanBody, hw, hf] at hinv ⊢ <;> omega
    | finish =>
      simp only [watchStep] at hstep
      by_cases hr : s.running = 0
      · rw [if_pos hr] at hstep
        cases hstep
      · rw [if_neg hr] at hstep
        simp only [Option.some.injEq] at hstep
        subst hstep
        by_cases hq : s.queued = true <;> by_cases hw : s.watching = true <;>
          by_cases hf : s.inFlight = true <;>
          simp [WatchInv, hq, hw, hf] at hinv ⊢ <;> omega
  · intro s hw hf
    show some (rescanBody s) = _
    unfold rescanBody
    rw [if_neg (by rw [hw]; exact fun h => nomatch h), if_pos hf]
  · intro s n hinv hw hf hq
    have htr := rescans_inFlight s hw hf n
    have hrun : s.running = 1 := by
      unfold WatchInv at hinv
      rw [hf] at hinv
      simpa using hinv
    by_cases hn : n = 0
    · subst hn
      rw [htr, if_pos rfl]
      refine ⟨{ s with inFlight := false, running := 0 }, ?_, rfl, hq, rfl, rfl, rfl⟩
      simp [watchStep, hrun, hq]
    · rw [htr, if_neg hn]
      refine ⟨{ s with inFlight := false, running := 0, queued := false, rescanTimer := true, followups := s.followups + 1 }, ?_, rfl, rfl, rfl, ?_, ?_⟩
      · simp [watchStep, hrun, hw]
      · simp [hn]
      · simp [hn]

/-- C8 counterexample: across the `start`/`stop` lifecycle, rescans DO
overlap.  A rescan starts (the timer armed by `start` fires), `stop()`
resets `rescanInFlight` while `onRescan` is still executing, a new
`start()` re-arms the initial scan, and its timer firing starts a second
rescan — now two `onRescan` calls execute concurrently (`running = 2`),
refuting "rescans for one watched root never overlap ... across the
component's whole start/stop lifecycle". -/
theorem rescanAndMaybeQueue_no_overlap_counterexample :
    ∃ s, watchRun [WatchEv.start, WatchEv.timerFire, WatchEv.stop,
        WatchEv.start, WatchEv.timerFire] = some s ∧ 2 ≤ s.running := by
  exact ⟨{ watching := true, rescanTimer := false, pollTimer := true, inFlight := true, queued := false, running := 2, followups := 0 }, rfl, by decide⟩

/-- A watcher state with one rescan in flight. -/
def watchWit : WatchSt :=
  { watching := true, rescanTimer := false, pollTimer := true,
    inFlight := true, queued := false, running := 1, followups := 0 }

theorem rescanAndMaybeQueue_no_overlap_witness :
    WatchInv watchWit ∧ watchWit.running ≤ 1 ∧
    WatchInv { watchWit with queued := true } ∧
    watchStep watchWit WatchEv.rescan = some { watchWit with queued := true } ∧
    (∃ s', watchStep (rescans 2 watchWit) WatchEv.finish = some s' ∧
      s'.inFlight = false ∧ s'.queued = false ∧ s'.running = 0 ∧
      s'.followups = watchWit.followups + (if 2 = 0 then 0 else 1) ∧
      s'.rescanTimer = (if 2 = 0 then watchWit.rescanTimer else true)) :=
  ⟨rfl, rescanAndMaybeQueue_no_overlap.1 watchWit rfl,
   rescanAndMaybeQueue_no_overlap.2.1 watchWit { watchWit with queued := true }
     WatchEv.rescan rfl (by decide) (by decide) rfl,
   rescanAndMaybeQueue_no_overlap.2.2.1 watchWit rfl rfl,
   rescanAndMaybeQueue_no_overlap.2.2.2 watchWit 2 rfl rfl rfl rfl⟩

end TftVod
